import Mathlib

/-!
Verification of the uwuhi DNS/mDNS library against its specification.

The definitions below are a shallow embedding of the Rust sources:
message buffers are lists of byte values (`Nat`, with range side conditions
stated where a claim needs them), the packet `Reader` is modelled by a
buffer together with an explicit cursor position, and fallible operations
return `Except Err`.  A Rust `panic!` / `unwrap` failure is modelled by a
dedicated `fatal` outcome.
-/

namespace Uwuhi

/-- Non-I/O error kinds of the codec, from `src/packet/error.rs`. -/
inductive Err where
  | Eof
  | PointerLoop
  | InvalidValue
  | Truncated
  | InvalidEmptyLabel
  | LabelTooLong
deriving DecidableEq, Repr

/-- Result of an operation that may also panic (Rust `unwrap`/`assert`). -/
inductive PRes (α : Type) where
  | ok (val : α)
  | err (e : Err)
  | fatal
deriving DecidableEq, Repr

/-- Reads one byte without advancing, `Reader::peek_u8`. -/
def peekU8 (buf : List Nat) (pos : Nat) : Except Err Nat :=
  match buf[pos]? with
  | some b => .ok b
  | none => .error .Eof

/-- Reads `len` bytes, `Reader::read_slice`. -/
def readSlice (buf : List Nat) (pos len : Nat) : Except Err (List Nat × Nat) :=
  if pos + len ≤ buf.length then .ok ((buf.drop pos).take len, pos + len)
  else .error .Eof

/-- Reads one byte and advances, `Reader::read_u8`. -/
def readU8 (buf : List Nat) (pos : Nat) : Except Err (Nat × Nat) :=
  if pos + 1 ≤ buf.length then .ok (buf.getD pos 0, pos + 1)
  else .error .Eof

/-- Reads a big-endian `u16`, `Reader::read_u16`. -/
def readU16 (buf : List Nat) (pos : Nat) : Except Err (Nat × Nat) :=
  if pos + 2 ≤ buf.length then
    .ok (buf.getD pos 0 * 256 + buf.getD (pos + 1) 0, pos + 2)
  else .error .Eof

/-- Reads a big-endian `u32`, `Reader::read_u32`. -/
def readU32 (buf : List Nat) (pos : Nat) : Except Err (Nat × Nat) :=
  if pos + 4 ≤ buf.length then
    .ok (buf.getD pos 0 * 16777216 + buf.getD (pos + 1) 0 * 65536 +
      buf.getD (pos + 2) 0 * 256 + buf.getD (pos + 3) 0, pos + 4)
  else .error .Eof

/-- Reads a DNS character-string, `Reader::read_character_string`. -/
def readCharString (buf : List Nat) (pos : Nat) : Except Err (List Nat × Nat) :=
  match readU8 buf pos with
  | .error e => .error e
  | .ok (len, pos1) => readSlice buf pos1 len

/-- Validation of `Label::try_new` from `src/name.rs`: a label is a
non-empty byte sequence of at most 63 bytes. -/
def labelTryNew (l : List Nat) : Except Err (List Nat) :=
  if l.isEmpty then .error .InvalidEmptyLabel
  else if 63 < l.length then .error .LabelTooLong
  else .ok l

/-- A domain name as produced by the decoder: the list of its labels. -/
abbrev DName := List (List Nat)

/-- Outcome of `Reader::read_domain_name`: the decoded labels together with
the reader position after the name, a codec error, or a Rust panic
(`read_u16().unwrap()` on a buffer that ends inside a pointer). -/
inductive DnOut where
  | ok (labels : DName) (pos : Nat)
  | err (e : Err)
  | fatal
deriving DecidableEq, Repr

/-- The pointer-chasing loop of `Reader::read_domain_name`
(`src/packet/decoder.rs`).  `selfPos` is the outer reader position,
`minPos` the monotonically decreasing upper bound on acceptable pointer
targets, and `copyPos` the shadow read position of the cloned reader. -/
def readDomainNameLoop (buf : List Nat) (selfPos : Nat) (acc : DName)
    (minPos copyPos : Nat) : DnOut :=
  if hpk : copyPos < buf.length then
    if buf.getD copyPos 0 &&& 192 = 192 then
      if h2 : copyPos + 2 ≤ buf.length then
        if hp : minPos ≤ (buf.getD copyPos 0 * 256 + buf.getD (copyPos + 1) 0) &&& 16383 then
          .err .PointerLoop
        else
          readDomainNameLoop buf (max selfPos (copyPos + 2)) acc
            ((buf.getD copyPos 0 * 256 + buf.getD (copyPos + 1) 0) &&& 16383)
            ((buf.getD copyPos 0 * 256 + buf.getD (copyPos + 1) 0) &&& 16383)
      else .fatal
    else if buf.getD copyPos 0 &&& 192 = 0 then
      if hz : buf.getD copyPos 0 = 0 then .ok acc (max selfPos (copyPos + 1))
      else
        if hs : copyPos + 1 + buf.getD copyPos 0 ≤ buf.length then
          match labelTryNew ((buf.drop (copyPos + 1)).take (buf.getD copyPos 0)) with
          | .error e => .err e
          | .ok l =>
            readDomainNameLoop buf selfPos (acc ++ [l]) minPos (copyPos + 1 + buf.getD copyPos 0)
        else .err .Eof
    else .err .InvalidValue
  else .err .Eof
termination_by (minPos, buf.length + 1 - copyPos)
decreasing_by
  · apply Prod.Lex.left
    omega
  · apply Prod.Lex.right
    omega

/-- Entry point `Reader::read_domain_name`: the loop started with the
bound and both positions at the current reader position. -/
def readDomainName (buf : List Nat) (pos : Nat) : DnOut :=
  readDomainNameLoop buf pos [] pos pos

/-- Fuel-indexed version of the pointer-chasing loop; `none` means the
step budget ran out.  Used to state that the loop terminates within an
explicit number of steps. -/
def readDnLoopFuel (fuel : Nat) (buf : List Nat) (selfPos : Nat) (acc : DName)
    (minPos copyPos : Nat) : Option DnOut :=
  match fuel with
  | 0 => none
  | fuel + 1 =>
    if copyPos < buf.length then
      if buf.getD copyPos 0 &&& 192 = 192 then
        if copyPos + 2 ≤ buf.length then
          if minPos ≤ (buf.getD copyPos 0 * 256 + buf.getD (copyPos + 1) 0) &&& 16383 then
            some (.err .PointerLoop)
          else
            readDnLoopFuel fuel buf (max selfPos (copyPos + 2)) acc
              ((buf.getD copyPos 0 * 256 + buf.getD (copyPos + 1) 0) &&& 16383)
              ((buf.getD copyPos 0 * 256 + buf.getD (copyPos + 1) 0) &&& 16383)
        else some .fatal
      else if buf.getD copyPos 0 &&& 192 = 0 then
        if buf.getD copyPos 0 = 0 then some (.ok acc (max selfPos (copyPos + 1)))
        else
          if copyPos + 1 + buf.getD copyPos 0 ≤ buf.length then
            match labelTryNew ((buf.drop (copyPos + 1)).take (buf.getD copyPos 0)) with
            | .error e => some (.err e)
            | .ok l =>
              readDnLoopFuel fuel buf selfPos (acc ++ [l]) minPos (copyPos + 1 + buf.getD copyPos 0)
          else some (.err .Eof)
      else some (.err .InvalidValue)
    else some (.err .Eof)

lemma readDnLoopFuel_complete :
    ∀ (n : Nat) (buf : List Nat) (selfPos : Nat) (acc : DName) (minPos copyPos : Nat),
      minPos * (buf.length + 2) + (buf.length + 1 - copyPos) + 1 ≤ n →
      readDnLoopFuel n buf selfPos acc minPos copyPos
        = some (readDomainNameLoop buf selfPos acc minPos copyPos) := by
  intro n
  induction n with
  | zero => intro buf selfPos acc minPos copyPos h; omega
  | succ n ih =>
    intro buf selfPos acc minPos copyPos h
    rw [readDomainNameLoop]
    simp only [readDnLoopFuel]
    by_cases h1 : copyPos < buf.length
    · by_cases h2 : buf.getD copyPos 0 &&& 192 = 192
      · by_cases h3 : copyPos + 2 ≤ buf.length
        · by_cases h4 : minPos ≤ (buf.getD copyPos 0 * 256 + buf.getD (copyPos + 1) 0) &&& 16383
          · simp only [dif_pos h1, if_pos h1, if_pos h2, dif_pos h3, if_pos h3, dif_pos h4,
              if_pos h4]
          · simp only [dif_pos h1, if_pos h1, if_pos h2, dif_pos h3, if_pos h3, dif_neg h4,
              if_neg h4]
            apply ih
            have hmul := Nat.mul_le_mul_right (buf.length + 2)
              (show ((buf.getD copyPos 0 * 256 + buf.getD (copyPos + 1) 0) &&& 16383) + 1 ≤ minPos
                by omega)
            rw [Nat.add_mul, Nat.one_mul] at hmul
            generalize hA :
              ((buf.getD copyPos 0 * 256 + buf.getD (copyPos + 1) 0) &&& 16383) * (buf.length + 2)
                = A at *
            generalize hB : minPos * (buf.length + 2) = B at *
            generalize hx : (buf.getD copyPos 0 * 256 + buf.getD (copyPos + 1) 0) &&& 16383 = x at *
            omega
        · simp only [dif_pos h1, if_pos h1, if_pos h2, dif_neg h3, if_neg h3]
      · by_cases h2b : buf.getD copyPos 0 &&& 192 = 0
        · by_cases hz : buf.getD copyPos 0 = 0
          · simp only [dif_pos h1, if_pos h1, if_neg h2, if_pos h2b, dif_pos hz, if_pos hz]
          · by_cases hs : copyPos + 1 + buf.getD copyPos 0 ≤ buf.length
            · simp only [dif_pos h1, if_pos h1, if_neg h2, if_pos h2b, dif_neg hz, if_neg hz,
                dif_pos hs, if_pos hs]
              cases htn : labelTryNew ((buf.drop (copyPos + 1)).take (buf.getD copyPos 0)) with
              | error e => rfl
              | ok l =>
                apply ih
                generalize hB : minPos * (buf.length + 2) = B at *
                omega
            · simp only [dif_pos h1, if_pos h1, if_neg h2, if_pos h2b, dif_neg hz, if_neg hz,
                dif_neg hs, if_neg hs]
        · simp only [dif_pos h1, if_pos h1, if_neg h2, if_neg h2b]
    · simp only [dif_neg h1, if_neg h1]

/-- Shared helper: a compression pointer whose 14-bit target is not
strictly below the current bound `minPos` makes the loop fail. -/
lemma loop_ptr_not_below_bound (buf : List Nat) (selfPos : Nat) (acc : DName)
    (minPos copyPos : Nat)
    (h1 : copyPos < buf.length)
    (h2 : buf.getD copyPos 0 &&& 192 = 192)
    (h3 : copyPos + 2 ≤ buf.length)
    (h4 : minPos ≤ (buf.getD copyPos 0 * 256 + buf.getD (copyPos + 1) 0) &&& 16383) :
    readDomainNameLoop buf selfPos acc minPos copyPos = .err .PointerLoop := by
  rw [readDomainNameLoop]
  simp only [dif_pos h1, if_pos h2, dif_pos h3, dif_pos h4]

/-- C1: during domain-name decoding the decoder keeps a monotonically
decreasing bound `minPos` on acceptable pointer targets (initially the
position where the name starts); any compression pointer whose 14-bit
target offset is not strictly below the bound yields
`Err(PointerLoop)`.  In particular a pointer at the start of a name
whose target is at or beyond the name's own position — a self-pointer
or a forward pointer — fails with `PointerLoop`. -/
theorem C1_pointer_loop_bound :
    (∀ (buf : List Nat) (selfPos : Nat) (acc : DName) (minPos copyPos : Nat),
        copyPos < buf.length →
        buf.getD copyPos 0 &&& 192 = 192 →
        copyPos + 2 ≤ buf.length →
        minPos ≤ (buf.getD copyPos 0 * 256 + buf.getD (copyPos + 1) 0) &&& 16383 →
        readDomainNameLoop buf selfPos acc minPos copyPos = .err .PointerLoop)
  ∧ (∀ (buf : List Nat) (pos : Nat),
        pos < buf.length →
        buf.getD pos 0 &&& 192 = 192 →
        pos + 2 ≤ buf.length →
        pos ≤ (buf.getD pos 0 * 256 + buf.getD (pos + 1) 0) &&& 16383 →
        readDomainName buf pos = .err .PointerLoop) :=
  ⟨fun buf selfPos acc minPos copyPos h1 h2 h3 h4 =>
      loop_ptr_not_below_bound buf selfPos acc minPos copyPos h1 h2 h3 h4,
   fun buf pos h1 h2 h3 h4 =>
      loop_ptr_not_below_bound buf pos [] pos pos h1 h2 h3 h4⟩

/-- Witness for C1: a pointer targeting offset 0 while the bound is 0,
and a name at offset 2 starting with a pointer to its own offset 2
(the crate's own `decode_domain_name_dos` test input). -/
theorem C1_pointer_loop_bound_witness :
    readDomainNameLoop [192, 0] 3 [] 0 0 = .err .PointerLoop ∧
    readDomainName [1, 97, 192, 2] 2 = .err .PointerLoop :=
  ⟨C1_pointer_loop_bound.1 [192, 0] 3 [] 0 0 (by decide) (by decide) (by decide) (by decide),
   C1_pointer_loop_bound.2 [1, 97, 192, 2] 2 (by decide) (by decide) (by decide) (by decide)⟩

/-- C2: the pointer-chasing loop of `read_domain_name` terminates on every
input within an explicit step budget — there is no input on which it
runs forever.  However, the loop does not always return a domain name or
an error: on the one-byte buffer `[0xC0]` (a compression pointer whose
second byte is missing) the code panics, because it unwraps the result
of `read_u16` after having peeked only one byte. -/
theorem C2_termination_and_truncated_pointer_panic :
    (∀ (buf : List Nat) (selfPos : Nat) (acc : DName) (minPos copyPos : Nat),
        readDnLoopFuel (minPos * (buf.length + 2) + buf.length + 2) buf selfPos acc minPos copyPos
          = some (readDomainNameLoop buf selfPos acc minPos copyPos))
  ∧ readDomainName [192] 0 = .fatal := by
  constructor
  · intro buf selfPos acc minPos copyPos
    apply readDnLoopFuel_complete
    omega
  · simp +decide [readDomainName, readDomainNameLoop]

/-- Mask lemma: `w &&& 0x7fff` keeps the low 15 bits. -/
lemma land_mask15 (w : Nat) : w &&& 32767 = w % 32768 := by
  have h := Nat.and_pow_two_sub_one_eq_mod w 15
  norm_num at h
  exact h

/-- Mask lemma: `w &&& 0x8000` isolates bit 15. -/
lemma land_bit15 (w : Nat) : w &&& 32768 = (w.testBit 15).toNat * 32768 := by
  have h := Nat.and_two_pow w 15
  norm_num at h
  exact h

/-- Mask lemma: `w &&& 0xff` keeps the low 8 bits. -/
lemma land_mask8 (w : Nat) : w &&& 255 = w % 256 := by
  have h := Nat.and_pow_two_sub_one_eq_mod w 8
  norm_num at h
  exact h

/-- A length byte below 64 is a literal-label tag (`00` in the top bits). -/
lemma land192_of_le63 (b : Nat) (h : b ≤ 63) : b &&& 192 = 0 := by
  have hb : b &&& 63 = b := by
    have h6 := Nat.and_pow_two_sub_one_eq_mod b 6
    norm_num at h6
    omega
  have h0 : (63 : Nat) &&& 192 = 0 := by decide
  calc b &&& 192 = b &&& 63 &&& 192 := by rw [hb]
    _ = b &&& (63 &&& 192) := Nat.land_assoc b 63 192
    _ = 0 := by rw [h0, Nat.and_zero]

/-- A `u16` with bit 15 clear is below `0x8000`. -/
lemma lt_32768_of_land_bit15_eq_zero (w : Nat) (hw : w < 65536) (h0 : w &&& 32768 = 0) :
    w < 32768 := by
  by_contra hge
  push_neg at hge
  have hd : w / 2 ^ 15 = 1 := by norm_num; omega
  have ht : w.testBit 15 = true := by
    rw [Nat.testBit_to_div_mod, hd]
    decide
  rw [land_bit15, ht] at h0
  simp at h0

/-- Bytes in range make `getD` values bytes. -/
lemma getD_lt_of_bytes (buf : List Nat) (i : Nat) (hb : ∀ b ∈ buf, b < 256)
    (h : i < buf.length) : buf.getD i 0 < 256 := by
  rw [List.getD_eq_getElem buf 0 h]
  exact hb _ (List.getElem_mem h)

/-- Values read by `read_u16` from a byte-valued buffer fit in a `u16`. -/
lemma readU16_lt (buf : List Nat) (pos w p : Nat) (hb : ∀ b ∈ buf, b < 256)
    (h : readU16 buf pos = .ok (w, p)) : w < 65536 := by
  unfold readU16 at h
  split at h
  · rename_i hc
    have h1 := getD_lt_of_bytes buf pos hb (by omega)
    have h2 := getD_lt_of_bytes buf (pos + 1) hb (by omega)
    simp only [Except.ok.injEq, Prod.mk.injEq] at h
    omega
  · simp at h

/-- A question parsed by `Reader::read_question`. -/
structure Question where
  qname : DName
  qtype : Nat
  qclass : Nat
  preferUnicast : Bool
deriving DecidableEq, Repr

/-- `Reader::read_question`: name, type, then the class word whose top bit
is split off as the unicast-response flag; the stored class keeps only
the low 8 bits (`qclass & 0xff` in the source). -/
def readQuestion (buf : List Nat) (pos : Nat) : PRes (Question × Nat) :=
  match readDomainName buf pos with
  | .fatal => .fatal
  | .err e => .err e
  | .ok qname pos1 =>
    match readU16 buf pos1 with
    | .error e => .err e
    | .ok (qtype, pos2) =>
      match readU16 buf pos2 with
      | .error e => .err e
      | .ok (qclass, pos3) =>
        .ok ({ qname := qname, qtype := qtype, qclass := qclass &&& 255,
               preferUnicast := qclass &&& 32768 != 0 }, pos3)

/-- A resource record parsed by `Reader::read_resource_record`; the RDATA
is kept as the split-off reader: the message buffer truncated at the
RDATA end, together with the RDATA start position. -/
structure ResourceRecord where
  name : DName
  type_ : Nat
  rclass : Nat
  cacheFlush : Bool
  ttl : Nat
  rdataBuf : List Nat
  rdataPos : Nat
deriving DecidableEq, Repr

/-- `Reader::read_resource_record`: name, type, class word (top bit split
off as the cache-flush flag; when it is set the class is masked with
`!0x8000`), TTL, RDATA length, and the split-off RDATA reader. -/
def readResourceRecord (buf : List Nat) (pos : Nat) : PRes (ResourceRecord × Nat) :=
  match readDomainName buf pos with
  | .fatal => .fatal
  | .err e => .err e
  | .ok name pos1 =>
    match readU16 buf pos1 with
    | .error e => .err e
    | .ok (ty, pos2) =>
      match readU16 buf pos2 with
      | .error e => .err e
      | .ok (raw, pos3) =>
        match readU32 buf pos3 with
        | .error e => .err e
        | .ok (ttl, pos4) =>
          match readU16 buf pos4 with
          | .error e => .err e
          | .ok (rdlength, pos5) =>
            if pos5 + rdlength ≤ buf.length then
              .ok ({ name := name, type_ := ty,
                     rclass := if raw &&& 32768 ≠ 0 then raw &&& 32767 else raw,
                     cacheFlush := raw &&& 32768 != 0, ttl := ttl,
                     rdataBuf := buf.take (pos5 + rdlength), rdataPos := pos5 },
                   pos5 + rdlength)
            else .err .Eof

/-- C3 counterexample: the question parser masks the on-wire class with
`0xff`, not `0x7fff`.  On a question whose on-wire class word is
`0x0101` the parsed class is `1`, not `0x0101 & 0x7fff = 257`. -/
theorem C3_counterexample :
    readQuestion [0, 0, 1, 1, 1] 0
      = .ok ({ qname := [], qtype := 1, qclass := 1, preferUnicast := false }, 5)
    ∧ (257 : Nat) &&& 32767 = 257 ∧ (1 : Nat) ≠ 257 := by
  refine ⟨?_, by decide, by decide⟩
  simp +decide [readQuestion, readDomainName, readDomainNameLoop, readU16]

/-- C3 (amended): both parsers extract the top bit of the on-wire class
word as the mDNS flag, but the question parser keeps only the low 8 bits
of the class (`& 0xff`) while the resource-record parser keeps the low
15 bits (`& 0x7fff`). -/
theorem C3_class_flag_masks :
    (∀ (buf : List Nat) (pos : Nat) (name : DName) (p1 t p2 w p3 p4 : Nat) (q : Question),
        readDomainName buf pos = .ok name p1 →
        readU16 buf p1 = .ok (t, p2) →
        readU16 buf p2 = .ok (w, p3) →
        readQuestion buf pos = .ok (q, p4) →
        q.preferUnicast = (w &&& 32768 != 0) ∧ q.qclass = w &&& 255)
  ∧ (∀ (buf : List Nat) (pos : Nat) (name : DName) (p1 t p2 w p3 p4 : Nat)
        (rr : ResourceRecord),
        (∀ b ∈ buf, b < 256) →
        readDomainName buf pos = .ok name p1 →
        readU16 buf p1 = .ok (t, p2) →
        readU16 buf p2 = .ok (w, p3) →
        readResourceRecord buf pos = .ok (rr, p4) →
        rr.cacheFlush = (w &&& 32768 != 0) ∧ rr.rclass = w &&& 32767) := by
  constructor
  · intro buf pos name p1 t p2 w p3 p4 q hn h1 h2 hq
    unfold readQuestion at hq
    simp only [hn, h1, h2] at hq
    simp only [PRes.ok.injEq, Prod.mk.injEq] at hq
    obtain ⟨hq1, -⟩ := hq
    rw [← hq1]
    exact ⟨rfl, rfl⟩
  · intro buf pos name p1 t p2 w p3 p4 rr hb hn h1 h2 hrr
    unfold readResourceRecord at hrr
    simp only [hn, h1, h2] at hrr
    cases h32 : readU32 buf p3 with
    | error e => simp only [h32] at hrr; simp at hrr
    | ok v4 =>
      obtain ⟨ttl, pos4⟩ := v4
      simp only [h32] at hrr
      cases h16 : readU16 buf pos4 with
      | error e => simp only [h16] at hrr; simp at hrr
      | ok v5 =>
        obtain ⟨rdlength, pos5⟩ := v5
        simp only [h16] at hrr
        by_cases hsp : pos5 + rdlength ≤ buf.length
        · simp only [if_pos hsp] at hrr
          simp only [PRes.ok.injEq, Prod.mk.injEq] at hrr
          obtain ⟨hq1, -⟩ := hrr
          rw [← hq1]
          refine ⟨rfl, ?_⟩
          by_cases hbit : w &&& 32768 ≠ 0
          · simp only [if_pos hbit]
          · simp only [if_neg hbit]
            push_neg at hbit
            have hw : w < 65536 := readU16_lt buf p2 w p3 hb h2
            have hlt : w < 32768 := lt_32768_of_land_bit15_eq_zero w hw hbit
            rw [land_mask15]
            omega
        · simp only [if_neg hsp] at hrr; simp at hrr

/-- Witness for C3's amended statement: a question with on-wire class
`0x8001` parses with the unicast flag set and class `1`; a resource
record with on-wire class `0x8001` parses with the cache-flush flag set
and class `1`. -/
theorem C3_class_flag_masks_witness :
    ((readQuestion [0, 0, 1, 128, 1] 0
        = .ok ({ qname := [], qtype := 1, qclass := 1, preferUnicast := true }, 5)) ∧
      (true = ((32769 : Nat) &&& 32768 != 0) ∧ (1 : Nat) = 32769 &&& 255))
    ∧ (true = ((32769 : Nat) &&& 32768 != 0) ∧ (1 : Nat) = 32769 &&& 32767) := by
  have hq : readQuestion [0, 0, 1, 128, 1] 0
      = .ok ({ qname := [], qtype := 1, qclass := 1, preferUnicast := true }, 5) := by
    simp +decide [readQuestion, readDomainName, readDomainNameLoop, readU16]
  have hn : readDomainName [0, 0, 1, 128, 1] 0 = .ok [] 1 := by
    simp +decide [readDomainName, readDomainNameLoop]
  have h1 : readU16 [0, 0, 1, 128, 1] 1 = .ok (1, 3) := by rfl
  have h2 : readU16 [0, 0, 1, 128, 1] 3 = .ok (32769, 5) := by rfl
  have hrr : readResourceRecord [0, 0, 1, 128, 1, 0, 0, 0, 60, 0, 0] 0
      = .ok ({ name := [], type_ := 1, rclass := 1, cacheFlush := true, ttl := 60,
               rdataBuf := [0, 0, 1, 128, 1, 0, 0, 0, 60, 0, 0], rdataPos := 11 }, 11) := by
    simp +decide [readResourceRecord, readDomainName, readDomainNameLoop, readU16, readU32]
  have hn2 : readDomainName [0, 0, 1, 128, 1, 0, 0, 0, 60, 0, 0] 0 = .ok [] 1 := by
    simp +decide [readDomainName, readDomainNameLoop]
  constructor
  · refine ⟨hq, ?_⟩
    have := C3_class_flag_masks.1 [0, 0, 1, 128, 1] 0 [] 1 1 3 32769 5 5
      { qname := [], qtype := 1, qclass := 1, preferUnicast := true } hn h1 h2 hq
    exact this
  · have := C3_class_flag_masks.2 [0, 0, 1, 128, 1, 0, 0, 0, 60, 0, 0] 0 [] 1 1 3 32769 5 11
      { name := [], type_ := 1, rclass := 1, cacheFlush := true, ttl := 60,
        rdataBuf := [0, 0, 1, 128, 1, 0, 0, 0, 60, 0, 0], rdataPos := 11 }
      (by decide) hn2 (by rfl) (by rfl) hrr
    exact this

/-- The inline/outline label representation of `src/packet/name.rs`
(`LabelRepr`): small labels are stored in a fixed inline buffer with an
explicit length, large ones in a boxed slice. -/
inductive LabelRepr where
  | inline (buf : List Nat) (len : Nat)
  | outline (data : List Nat)
deriving DecidableEq, Repr

/-- `LABEL_MAX_INLINE_LEN` on a 64-bit system: three words minus the
discriminant byte and the length byte. -/
def labelMaxInlineLen : Nat := 8 * 3 - 1 - 1

/-- The `Label::try_new` of `src/packet/name.rs`: same validation as in
`src/name.rs`, then the representation is chosen by length; the inline
buffer is zero-padded after the copied prefix. -/
def labelTryNew2 (l : List Nat) : Except Err LabelRepr :=
  if l.isEmpty then .error .InvalidEmptyLabel
  else if 63 < l.length then .error .LabelTooLong
  else .ok (if l.length ≤ labelMaxInlineLen then
      .inline (l ++ List.replicate (labelMaxInlineLen - l.length) 0) l.length
    else .outline l)

/-- The `as_bytes` accessor of the inline/outline label. -/
def LabelRepr.asBytes : LabelRepr → List Nat
  | .inline buf len => buf.take len
  | .outline data => data

/-- Lexicographic byte comparison, the `Ord` of Rust byte slices:
elementwise comparison first, then shorter-is-smaller. -/
def compareBytes : List Nat → List Nat → Ordering
  | [], [] => .eq
  | [], _ :: _ => .lt
  | _ :: _, [] => .gt
  | a :: as_, b :: bs =>
    match compare a b with
    | .eq => compareBytes as_ bs
    | o => o

/-- The `PartialEq` of the inline/outline label: compares `as_bytes`. -/
def labelEq2 (a b : LabelRepr) : Bool := a.asBytes == b.asBytes

/-- The `Ord` of the inline/outline label: compares `as_bytes`. -/
def labelCmp2 (a b : LabelRepr) : Ordering := compareBytes a.asBytes b.asBytes

/-- The `Hash` of the inline/outline label feeds exactly `as_bytes` to
the hasher. -/
def labelHashFeed (a : LabelRepr) : List Nat := a.asBytes

lemma compareBytes_self (l : List Nat) : compareBytes l l = .eq := by
  induction l with
  | nil => rfl
  | cons a as_ ih =>
    rw [compareBytes, Nat.compare_eq_eq.mpr rfl, ih]

/-- C9: the two `Label` implementations are observably equivalent:
`try_new` accepts exactly the non-empty sequences of at most 63 bytes in
both, with identical errors otherwise; `as_bytes` returns the
constructing bytes in both; and equality, ordering and hashing of the
inline/outline label depend only on the byte content, whatever the
representation. -/
theorem C9_label_impls_equivalent :
    (∀ l : List Nat, l ≠ [] → l.length ≤ 63 →
        labelTryNew l = .ok l ∧ ∃ r, labelTryNew2 l = .ok r ∧ r.asBytes = l)
  ∧ (labelTryNew [] = .error .InvalidEmptyLabel ∧ labelTryNew2 [] = .error .InvalidEmptyLabel)
  ∧ (∀ l : List Nat, 63 < l.length →
        labelTryNew l = .error .LabelTooLong ∧ labelTryNew2 l = .error .LabelTooLong)
  ∧ (∀ a b : LabelRepr, a.asBytes = b.asBytes →
        labelEq2 a b = true ∧ labelCmp2 a b = .eq ∧ labelHashFeed a = labelHashFeed b) := by
  refine ⟨?_, ⟨rfl, rfl⟩, ?_, ?_⟩
  · intro l hne hlen
    have hne2 : l.isEmpty = false := by
      cases l with
      | nil => exact absurd rfl hne
      | cons a as_ => rfl
    have hgt : ¬63 < l.length := by omega
    refine ⟨by simp [labelTryNew, hne2, hgt], ?_⟩
    by_cases hin : l.length ≤ labelMaxInlineLen
    · refine ⟨.inline (l ++ List.replicate (labelMaxInlineLen - l.length) 0) l.length,
        by simp [labelTryNew2, hne2, hgt, hin], ?_⟩
      simp [LabelRepr.asBytes, List.take_left]
    · refine ⟨.outline l, by simp [labelTryNew2, hne2, hgt, hin], rfl⟩
  · intro l hlen
    have hne2 : l.isEmpty = false := by
      cases l with
      | nil => simp at hlen
      | cons a as_ => rfl
    constructor
    · simp [labelTryNew, hne2, hlen]
    · simp [labelTryNew2, hne2, hlen]
  · intro a b hab
    refine ⟨by simp [labelEq2, hab], ?_, by simp [labelHashFeed, hab]⟩
    rw [labelCmp2, hab]
    exact compareBytes_self _

/-- Witness for C9: the one-byte label `a` is accepted identically by
both implementations; a 64-byte label is rejected identically; an inline
and an outline label with the same bytes compare equal. -/
theorem C9_label_impls_equivalent_witness :
    (labelTryNew [97] = .ok [97] ∧ ∃ r, labelTryNew2 [97] = .ok r ∧ r.asBytes = [97])
  ∧ (labelTryNew (List.replicate 64 0) = .error .LabelTooLong ∧
      labelTryNew2 (List.replicate 64 0) = .error .LabelTooLong)
  ∧ (labelEq2 (.inline ([97] ++ List.replicate 21 0) 1) (.outline [97]) = true ∧
      labelCmp2 (.inline ([97] ++ List.replicate 21 0) 1) (.outline [97]) = .eq ∧
      labelHashFeed (.inline ([97] ++ List.replicate 21 0) 1) = labelHashFeed (.outline [97])) :=
  ⟨C9_label_impls_equivalent.1 [97] (by decide) (by decide),
   C9_label_impls_equivalent.2.2.1 (List.replicate 64 0) (by decide),
   C9_label_impls_equivalent.2.2.2 (.inline ([97] ++ List.replicate 21 0) 1) (.outline [97])
     (by decide)⟩

/-- Byte content of the `_tcp` transport label. -/
def tcpLabel : List Nat := [95, 116, 99, 112]

/-- Byte content of the `_udp` transport label. -/
def udpLabel : List Nat := [95, 117, 100, 112]

/-- Transport protocol of an advertised service, `ServiceTransport`. -/
inductive ServiceTransport where
  | TCP
  | Other
deriving DecidableEq, Repr

/-- A service type identifier, `Service` in `src/service.rs`. -/
structure Service where
  name : List Nat
  transport : ServiceTransport
deriving DecidableEq, Repr

/-- `Service::from_ptr`: takes the labels of the PTR target; consumes the
service label and transport label, requires a third label (the domain)
to be present, then matches the transport label. -/
def Service.fromPtr (ptrdname : DName) : Except Err Service :=
  match ptrdname with
  | [] => .error .Eof
  | [_] => .error .Eof
  | serviceName :: transport :: rest =>
    if rest.isEmpty then .error .Eof
    else if transport = tcpLabel then .ok ⟨serviceName, .TCP⟩
    else if transport = udpLabel then .ok ⟨serviceName, .Other⟩
    else .error .InvalidValue

/-- A named service instance, `ServiceInstance` in `src/service.rs`. -/
structure ServiceInstance where
  instanceName : List Nat
  service : Service
deriving DecidableEq, Repr

/-- `ServiceInstance::from_ptr`: consumes instance, service and transport
labels, requires a fourth label (the domain) to be present, then matches
the transport label. -/
def ServiceInstance.fromPtr (ptrdname : DName) : Except Err ServiceInstance :=
  match ptrdname with
  | [] => .error .Eof
  | [_] => .error .Eof
  | [_, _] => .error .Eof
  | instanceName :: serviceName :: transport :: rest =>
    if rest.isEmpty then .error .Eof
    else if transport = tcpLabel then .ok ⟨instanceName, ⟨serviceName, .TCP⟩⟩
    else if transport = udpLabel then .ok ⟨instanceName, ⟨serviceName, .Other⟩⟩
    else .error .InvalidValue

/-- C10: `Service::from_ptr` returns `Eof` on fewer than three labels and
`ServiceInstance::from_ptr` on fewer than four (a missing domain reports
`Eof`, even when the transport label is already invalid); with enough
labels but a transport label that is neither `_tcp` nor `_udp`, both
return `InvalidValue`. -/
theorem C10_from_ptr_label_counts :
    (∀ n : DName, n.length < 3 → Service.fromPtr n = .error .Eof)
  ∧ (∀ n : DName, n.length < 4 → ServiceInstance.fromPtr n = .error .Eof)
  ∧ (∀ (s t : List Nat) (rest : DName), rest ≠ [] → t ≠ tcpLabel → t ≠ udpLabel →
        Service.fromPtr (s :: t :: rest) = .error .InvalidValue)
  ∧ (∀ (i s t : List Nat) (rest : DName), rest ≠ [] → t ≠ tcpLabel → t ≠ udpLabel →
        ServiceInstance.fromPtr (i :: s :: t :: rest) = .error .InvalidValue) := by
  refine ⟨?_, ?_, ?_, ?_⟩
  · intro n hn
    match n with
    | [] => rfl
    | [_] => rfl
    | a :: b :: rest =>
      have : rest = [] := by
        simp at hn
        exact List.length_eq_zero.mp (by omega)
      subst this
      rfl
  · intro n hn
    match n with
    | [] => rfl
    | [_] => rfl
    | [_, _] => rfl
    | a :: b :: c :: rest =>
      have : rest = [] := by
        simp at hn
        exact List.length_eq_zero.mp (by omega)
      subst this
      rfl
  · intro s t rest hrest ht hu
    have hre : rest.isEmpty = false := by
      cases rest with
      | nil => exact absurd rfl hrest
      | cons x xs => rfl
    simp [Service.fromPtr, hre, ht, hu]
  · intro i s t rest hrest ht hu
    have hre : rest.isEmpty = false := by
      cases rest with
      | nil => exact absurd rfl hrest
      | cons x xs => rfl
    simp [ServiceInstance.fromPtr, hre, ht, hu]

/-- Witness for C10: a two-label PTR target with an invalid transport
still reports `Eof` from `Service::from_ptr`; a three-label target with
transport `_xyz` reports `InvalidValue`; analogously one label longer
for `ServiceInstance::from_ptr`. -/
theorem C10_from_ptr_label_counts_witness :
    Service.fromPtr [[95, 97], [95, 120, 121, 122]] = .error .Eof
  ∧ ServiceInstance.fromPtr [[105], [95, 97], [95, 120, 121, 122]] = .error .Eof
  ∧ Service.fromPtr [[95, 97], [95, 120, 121, 122], [108]] = .error .InvalidValue
  ∧ ServiceInstance.fromPtr [[105], [95, 97], [95, 120, 121, 122], [108]]
      = .error .InvalidValue :=
  ⟨C10_from_ptr_label_counts.1 [[95, 97], [95, 120, 121, 122]] (by decide),
   C10_from_ptr_label_counts.2.1 [[105], [95, 97], [95, 120, 121, 122]] (by decide),
   C10_from_ptr_label_counts.2.2.1 [95, 97] [95, 120, 121, 122] [[108]]
     (by decide) (by decide) (by decide),
   C10_from_ptr_label_counts.2.2.2 [105] [95, 97] [95, 120, 121, 122] [[108]]
     (by decide) (by decide) (by decide)⟩

/-- An IP address, distinguishing the two families. -/
inductive IpAddr where
  | v4 (a b c d : Nat)
  | v6 (segs : List Nat)
deriving DecidableEq, Repr

/-- Family checks of `std::net::IpAddr`. -/
def IpAddr.isIpv6 : IpAddr → Bool
  | .v4 .. => false
  | .v6 _ => true

def IpAddr.isIpv4 : IpAddr → Bool
  | .v4 .. => true
  | .v6 _ => false

/-- `is_multicast`: IPv4 when the first octet is in `224..=239`, IPv6
when the first segment starts with byte `0xff`. -/
def IpAddr.isMulticast : IpAddr → Bool
  | .v4 a _ _ _ => 224 ≤ a && a ≤ 239
  | .v6 segs => segs.getD 0 0 &&& 65280 == 65280

/-- A socket address: IP plus port. -/
structure SockAddr where
  ip : IpAddr
  port : Nat
deriving DecidableEq, Repr

/-- The bind address chosen by `SyncResolver::new`: the unspecified
address of the same family as the server, port 0. -/
def bindAddrFor (sock : SockAddr) : SockAddr :=
  if sock.ip.isIpv6 then ⟨.v6 [0, 0, 0, 0, 0, 0, 0, 0], 0⟩ else ⟨.v4 0 0 0 0, 0⟩

/-- The resolver state relevant to `add_server`: the server list and the
`is_multicast` flag. -/
structure SyncResolver where
  servers : List SockAddr
  isMulticast : Bool
deriving DecidableEq, Repr

/-- `SyncResolver::new`: one configured server; note that the source
computes `is_multicast` from `bind_addr`, not from `sock`. -/
def SyncResolver.new (sock : SockAddr) : SyncResolver :=
  { servers := [sock], isMulticast := (bindAddrFor sock).ip.isMulticast }

/-- The IPv4 mDNS group endpoint `224.0.0.251:5353`. -/
def mdnsV4Addr : SockAddr := ⟨.v4 224 0 0 251, 5353⟩

/-- The IPv6 mDNS group endpoint `[ff02::fb]:5353`. -/
def mdnsV6Addr : SockAddr := ⟨.v6 [65282, 0, 0, 0, 0, 0, 0, 251], 5353⟩

/-- `SyncResolver::new_multicast_v4`. -/
def SyncResolver.newMulticastV4 : SyncResolver := SyncResolver.new mdnsV4Addr

/-- `SyncResolver::new_multicast_v6`. -/
def SyncResolver.newMulticastV6 : SyncResolver := SyncResolver.new mdnsV6Addr

/-- `SyncResolver::add_server`; `none` models a panic (a failed
`assert!`): on a multicast resolver, or on a family mismatch with the
last configured server. -/
def SyncResolver.addServer (r : SyncResolver) (server : SockAddr) : Option SyncResolver :=
  if r.isMulticast then none
  else
    match r.servers.getLast? with
    | none => none
    | some last =>
      if last.ip.isIpv4 = server.ip.isIpv4 then
        some { r with servers := r.servers ++ [server] }
      else none

/-- C8 evaluation: the multicast constructors produce resolvers whose
`is_multicast` flag is `false` (it is computed from the unspecified bind
address rather than the server address), so `add_server` does not panic
on them, contrary to its own documentation; the family-mismatch panic
does hold. -/
theorem C8_add_server_multicast_flag_broken :
    SyncResolver.newMulticastV4.isMulticast = false
  ∧ SyncResolver.newMulticastV6.isMulticast = false
  ∧ mdnsV4Addr.ip.isMulticast = true
  ∧ mdnsV6Addr.ip.isMulticast = true
  ∧ SyncResolver.addServer SyncResolver.newMulticastV4 ⟨.v4 127 0 0 1, 53⟩
      = some { servers := [mdnsV4Addr, ⟨.v4 127 0 0 1, 53⟩], isMulticast := false }
  ∧ (∀ (r : SyncResolver) (s last : SockAddr),
        r.servers.getLast? = some last →
        last.ip.isIpv4 ≠ s.ip.isIpv4 →
        SyncResolver.addServer r s = none) := by
  refine ⟨by decide, by decide, by decide, by decide, by decide, ?_⟩
  intro r s last hlast hfam
  unfold SyncResolver.addServer
  by_cases hm : r.isMulticast
  · simp [hm]
  · simp [hm, hlast, hfam]

/-- Witness for C8: a family mismatch against the last configured server
panics. -/
theorem C8_add_server_multicast_flag_broken_witness :
    SyncResolver.addServer (SyncResolver.new ⟨.v4 1 2 3 4, 53⟩) ⟨.v6 [0, 0, 0, 0, 0, 0, 0, 1], 53⟩
      = none :=
  C8_add_server_multicast_flag_broken.2.2.2.2.2
    (SyncResolver.new ⟨.v4 1 2 3 4, 53⟩) ⟨.v6 [0, 0, 0, 0, 0, 0, 0, 1], 53⟩ ⟨.v4 1 2 3 4, 53⟩
    (by decide) (by decide)

/-- The tagged union of the nine supported record types
(`Record` in `src/packet/records.rs`). -/
inductive RecordData where
  | A (octets : List Nat)
  | AAAA (octets : List Nat)
  | CNAME (name : DName)
  | MX (preference : Nat) (exchange : DName)
  | NS (nsdname : DName)
  | PTR (ptrdname : DName)
  | TXT (entries : List (List Nat))
  | SRV (priority weight port : Nat) (target : DName)
  | SOA (mname rname : DName) (serial refresh retry expire minimumTtl : Nat)
deriving DecidableEq, Repr

/-- The wire type code of each record variant, `Record::record_type`. -/
def RecordData.recordType : RecordData → Nat
  | .A _ => 1
  | .NS _ => 2
  | .CNAME _ => 5
  | .SOA .. => 6
  | .PTR _ => 12
  | .MX .. => 15
  | .TXT _ => 16
  | .AAAA _ => 28
  | .SRV .. => 33

/-- The byte writer of the encoder (`Writer` in `src/packet/encoder.rs`):
a fixed-size buffer, a cursor, and the truncation flag. -/
structure Writer where
  data : List Nat
  pos : Nat
  trunc : Bool
deriving DecidableEq, Repr

/-- Overwrites `s.length` bytes of `d` starting at position `p`. -/
def listWrite (d : List Nat) (p : Nat) (s : List Nat) : List Nat :=
  d.take p ++ s ++ d.drop (p + s.length)

/-- `Writer::write_slice`: writes the bytes if they fit; otherwise writes
the prefix that fits and sets the truncation flag. -/
def Writer.writeSlice (w : Writer) (s : List Nat) : Writer :=
  if w.data.length - w.pos < s.length then
    { data := listWrite w.data w.pos (s.take (w.data.length - w.pos)),
      pos := w.pos + (w.data.length - w.pos), trunc := true }
  else
    { data := listWrite w.data w.pos s, pos := w.pos + s.length, trunc := w.trunc }

/-- `Writer::write_u8`; the `% 256` models the `as u8` casts performed by
callers that pass a length. -/
def Writer.writeU8 (w : Writer) (b : Nat) : Writer := w.writeSlice [b % 256]

/-- `Writer::write_u16`: big-endian byte pair. -/
def Writer.writeU16 (w : Writer) (v : Nat) : Writer := w.writeSlice [v / 256 % 256, v % 256]

/-- `Writer::write_u32`: big-endian byte quadruple. -/
def Writer.writeU32 (w : Writer) (v : Nat) : Writer :=
  w.writeSlice [v / 16777216 % 256, v / 65536 % 256, v / 256 % 256, v % 256]

/-- `Writer::write_domain_name`: every label as a length byte followed by
its bytes, then the terminating zero of the implicit root label. -/
def Writer.writeDomainName (w : Writer) (n : DName) : Writer :=
  (n.foldl (fun w l => (w.writeU8 l.length).writeSlice l) w).writeU8 0

/-- `Writer::write_character_string`: asserts the length fits in one byte
(`none` models the panic), then length byte plus content. -/
def Writer.writeCharString (w : Writer) (s : List Nat) : Option Writer :=
  if s.length ≤ 255 then some ((w.writeU8 s.length).writeSlice s) else none

/-- The loop of `TXT::encode` over the character-string entries. -/
def writeTxtEntries (w : Writer) (entries : List (List Nat)) : Option Writer :=
  match entries with
  | [] => some w
  | e :: rest =>
    match w.writeCharString e with
    | none => none
    | some w1 => writeTxtEntries w1 rest

/-- `RecordData::encode` dispatched over the nine variants
(`src/packet/records.rs`); `none` models a panicking `assert!`. -/
def recordEncode (r : RecordData) (w : Writer) : Option Writer :=
  match r with
  | .A octets => some (w.writeSlice octets)
  | .AAAA octets => some (w.writeSlice octets)
  | .CNAME name => some (w.writeDomainName name)
  | .MX pref exch => some ((w.writeU16 pref).writeDomainName exch)
  | .NS n => some (w.writeDomainName n)
  | .PTR n => some (w.writeDomainName n)
  | .TXT entries => writeTxtEntries w entries
  | .SRV p wt port target =>
      some ((((w.writeU16 p).writeU16 wt).writeU16 port).writeDomainName target)
  | .SOA m rn serial refresh retry expire minTtl =>
      some (((((((w.writeDomainName m).writeDomainName rn).writeU32 serial).writeU32
        refresh).writeU32 retry).writeU32 expire).writeU32 minTtl)

/-- The packet header (`Header` in `src/packet.rs`): id, flags word, and
the four section counts, all 16-bit. -/
structure Header where
  id : Nat
  flags : Nat
  qdcount : Nat
  ancount : Nat
  nscount : Nat
  arcount : Nat
deriving DecidableEq, Repr

/-- `Header::default`: all zero. -/
def Header.default : Header := ⟨0, 0, 0, 0, 0, 0⟩

/-- Sets or clears a flag mask in a 16-bit flags word, the `bitflags`
`set` operation: insert by `or`, remove by `and`-ing the complement. -/
def setFlag (flags mask : Nat) (b : Bool) : Nat :=
  if b then flags ||| mask else flags &&& (65535 ^^^ mask)

def Header.isResponse (h : Header) : Bool := h.flags &&& 32768 == 32768

def Header.isQuery (h : Header) : Bool := !h.isResponse

def Header.isTruncated (h : Header) : Bool := h.flags &&& 512 == 512

def Header.isAuthority (h : Header) : Bool := h.flags &&& 1024 == 1024

def Header.opcode (h : Header) : Nat := (h.flags &&& 30720) >>> 11

def Header.rcode (h : Header) : Nat := h.flags &&& 15

def Header.setId (h : Header) (id : Nat) : Header := { h with id := id }

def Header.setResponse (h : Header) (b : Bool) : Header :=
  { h with flags := setFlag h.flags 32768 b }

def Header.setAuthority (h : Header) (b : Bool) : Header :=
  { h with flags := setFlag h.flags 1024 b }

def Header.setTruncated (h : Header) (b : Bool) : Header :=
  { h with flags := setFlag h.flags 512 b }

/-- `read_obj::<Header>` at the start of a message: twelve bytes parsed
as six big-endian 16-bit fields. -/
def parseHeader (buf : List Nat) : Except Err (Header × Nat) :=
  if 12 ≤ buf.length then
    .ok ({ id := buf.getD 0 0 * 256 + buf.getD 1 0,
           flags := buf.getD 2 0 * 256 + buf.getD 3 0,
           qdcount := buf.getD 4 0 * 256 + buf.getD 5 0,
           ancount := buf.getD 6 0 * 256 + buf.getD 7 0,
           nscount := buf.getD 8 0 * 256 + buf.getD 9 0,
           arcount := buf.getD 10 0 * 256 + buf.getD 11 0 }, 12)
  else .error .Eof

/-- The twelve header bytes, big-endian fields. -/
def headerBytes (h : Header) : List Nat :=
  [h.id / 256 % 256, h.id % 256, h.flags / 256 % 256, h.flags % 256,
   h.qdcount / 256 % 256, h.qdcount % 256, h.ancount / 256 % 256, h.ancount % 256,
   h.nscount / 256 % 256, h.nscount % 256, h.arcount / 256 % 256, h.arcount % 256]

/-- The header parsed back from a finished buffer (root header if the
buffer is shorter than a header). -/
def headerOf (buf : List Nat) : Header :=
  match parseHeader buf with
  | .ok (h, _) => h
  | .error _ => Header.default

/-- `MessageEncoder` (`src/packet/encoder.rs`): the writer plus the four
per-section entry counters of `EncoderInner`. -/
structure MsgEncoder where
  w : Writer
  qdcount : Nat
  ancount : Nat
  nscount : Nat
  arcount : Nat
deriving DecidableEq, Repr

/-- `MessageEncoder::new`: reserves the header by writing a zeroed
`Header`, counters start at zero. -/
def MsgEncoder.new (buf : List Nat) : MsgEncoder :=
  { w := (Writer.mk buf 0 false).writeSlice (headerBytes Header.default),
    qdcount := 0, ancount := 0, nscount := 0, arcount := 0 }

/-- `MessageEncoder::set_header`: overwrites the first twelve buffer
bytes; `none` models the panic when the buffer is shorter. -/
def MsgEncoder.setHeader (e : MsgEncoder) (h : Header) : Option MsgEncoder :=
  if 12 ≤ e.w.data.length then
    some { e with w := { e.w with data := listWrite e.w.data 0 (headerBytes h) } }
  else none

/-- `MessageEncoder::question`: name, type, class; bumps the question
counter. -/
def MsgEncoder.question (e : MsgEncoder) (name : DName) (qtype qclass : Nat) : MsgEncoder :=
  { e with w := ((e.w.writeDomainName name).writeU16 qtype).writeU16 qclass,
           qdcount := e.qdcount + 1 }

/-- `MessageEncoder::write_rr`: name, type, class, TTL, a dummy RDATA
length, the RDATA body, then the back-patched RDATA length (`none`
models the `expect` on `u16` overflow or a panicking record encoder). -/
def Writer.writeRR (w : Writer) (name : DName) (rclass ttl : Nat) (rdata : RecordData) :
    Option Writer :=
  let w1 := (((w.writeDomainName name).writeU16 rdata.recordType).writeU16 rclass).writeU32 ttl
  let lenpos := w1.pos
  let w2 := w1.writeU16 0
  let before := w2.pos
  match recordEncode rdata w2 with
  | none => none
  | some w3 =>
    if w3.pos - before ≤ 65535 then
      let w4 : Writer := { w3 with pos := lenpos }
      let w5 := w4.writeU16 (w3.pos - before)
      some { w5 with pos := w3.pos }
    else none

/-- `MessageEncoder::add_answer`. -/
def MsgEncoder.addAnswer (e : MsgEncoder) (name : DName) (rclass ttl : Nat)
    (rdata : RecordData) : Option MsgEncoder :=
  match e.w.writeRR name rclass ttl rdata with
  | none => none
  | some w => some { e with w := w, ancount := e.ancount + 1 }

/-- `MessageEncoder::add_authority`. -/
def MsgEncoder.addAuthority (e : MsgEncoder) (name : DName) (rclass ttl : Nat)
    (rdata : RecordData) : Option MsgEncoder :=
  match e.w.writeRR name rclass ttl rdata with
  | none => none
  | some w => some { e with w := w, nscount := e.nscount + 1 }

/-- `MessageEncoder::add_additional`. -/
def MsgEncoder.addAdditional (e : MsgEncoder) (name : DName) (rclass ttl : Nat)
    (rdata : RecordData) : Option MsgEncoder :=
  match e.w.writeRR name rclass ttl rdata with
  | none => none
  | some w => some { e with w := w, arcount := e.arcount + 1 }

/-- Replaces the four section counts of a header, the count patch of
`EncoderInner::drop`. -/
def patchCounts (cur : Header) (qd an ns ar : Nat) : Header :=
  { cur with
    qdcount := qd
    ancount := an
    nscount := ns
    arcount := ar }

/-- `MessageEncoder::finish` together with the `Drop` of `EncoderInner`:
the four counters and the truncation flag are patched into the header,
then the byte count or `Truncated` is returned.  `none` models the panic
of `modify_header` on a buffer shorter than a header. -/
def MsgEncoder.finishE (e : MsgEncoder) : Option (List Nat × Except Err Nat) :=
  match parseHeader e.w.data with
  | .error _ => none
  | .ok (cur, _) =>
    some (listWrite e.w.data 0
        (headerBytes ((patchCounts cur e.qdcount e.ancount e.nscount e.arcount).setTruncated
          e.w.trunc)),
      if e.w.trunc then .error .Truncated else .ok e.w.pos)

lemma writeSlice_trunc (w : Writer) (s : List Nat) :
    (w.writeSlice s).trunc = (w.trunc || decide (w.data.length - w.pos < s.length)) := by
  unfold Writer.writeSlice
  split_ifs with h <;> simp [h]

lemma parseHeader_headerBytes (h : Header) (rest : List Nat)
    (hid : h.id < 65536) (hf : h.flags < 65536) (hq : h.qdcount < 65536)
    (ha : h.ancount < 65536) (hn : h.nscount < 65536) (hr : h.arcount < 65536) :
    parseHeader (headerBytes h ++ rest) = .ok (h, 12) := by
  obtain ⟨id, flags, qd, an, ns, ar⟩ := h
  simp only [headerBytes, parseHeader, List.cons_append, List.nil_append] at *
  rw [if_pos (by simp)]
  simp only [List.getD_cons_zero, List.getD_cons_succ, Except.ok.injEq, Prod.mk.injEq,
    Header.mk.injEq]
  refine ⟨⟨?_, ?_, ?_, ?_, ?_, ?_⟩, trivial⟩ <;> omega

lemma setFlag_lt (f m : Nat) (b : Bool) (hf : f < 65536) (hm : m < 65536) :
    setFlag f m b < 65536 := by
  unfold setFlag
  cases b
  · simp only [Bool.false_eq_true, if_false]
    calc f &&& (65535 ^^^ m) ≤ f := Nat.and_le_left
      _ < 65536 := hf
  · simp only [if_true]
    have h1 : f < 2 ^ 16 := by norm_num; omega
    have h2 : m < 2 ^ 16 := by norm_num; omega
    have h3 := Nat.or_lt_two_pow h1 h2
    norm_num at h3
    exact h3

lemma isTruncated_setTruncated (h : Header) (b : Bool) :
    (h.setTruncated b).isTruncated = b := by
  unfold Header.setTruncated Header.isTruncated setFlag
  cases b
  · simp only [Bool.false_eq_true, if_false]
    rw [Nat.land_assoc]
    have h0 : (65535 ^^^ 512) &&& 512 = 0 := by decide
    rw [h0, Nat.and_zero]
    decide
  · simp only [if_true]
    rw [Nat.and_distrib_right]
    have h9 := Nat.and_two_pow h.flags 9
    norm_num at h9
    rw [h9]
    cases h.flags.testBit 9 <;> decide

lemma headerBytes_length (h : Header) : (headerBytes h).length = 12 := by
  simp [headerBytes]

lemma parseHeader_fields_lt (buf : List Nat) (h : Header) (p : Nat)
    (hb : ∀ b ∈ buf, b < 256) (hp : parseHeader buf = .ok (h, p)) :
    h.id < 65536 ∧ h.flags < 65536 ∧ h.qdcount < 65536 ∧ h.ancount < 65536 ∧
      h.nscount < 65536 ∧ h.arcount < 65536 := by
  unfold parseHeader at hp
  split at hp
  · rename_i h12
    simp only [Except.ok.injEq, Prod.mk.injEq] at hp
    obtain ⟨hh, -⟩ := hp
    have hg : ∀ i, i < 12 → buf.getD i 0 < 256 := fun i hi =>
      getD_lt_of_bytes buf i hb (by omega)
    rw [← hh]
    refine ⟨?_, ?_, ?_, ?_, ?_, ?_⟩ <;>
      simp only [] <;>
      have := hg 0 (by omega) <;> have := hg 1 (by omega) <;> have := hg 2 (by omega) <;>
      have := hg 3 (by omega) <;> have := hg 4 (by omega) <;> have := hg 5 (by omega) <;>
      have := hg 6 (by omega) <;> have := hg 7 (by omega) <;> have := hg 8 (by omega) <;>
      have := hg 9 (by omega) <;> have := hg 10 (by omega) <;> have := hg 11 (by omega) <;>
      omega
  · simp at hp

/-- C5: a write that would exceed the buffer sets the truncation flag
(and a set flag persists); on overflow only the fitting prefix is
written; each entry-adding operation bumps exactly its section counter;
finalization patches the four counters and the TC bit into the header,
and `finish` returns `Truncated` exactly when the flag is set, otherwise
the number of bytes written. -/
theorem C5_encoder_truncation_contract :
    (∀ (w : Writer) (s : List Nat),
        (w.writeSlice s).trunc = (w.trunc || decide (w.data.length - w.pos < s.length)) ∧
        (w.data.length - w.pos < s.length →
          (w.writeSlice s).data = listWrite w.data w.pos (s.take (w.data.length - w.pos))))
  ∧ (∀ (e : MsgEncoder) (name : DName) (qtype qclass : Nat),
        (e.question name qtype qclass).qdcount = e.qdcount + 1 ∧
        (e.question name qtype qclass).ancount = e.ancount ∧
        (e.question name qtype qclass).nscount = e.nscount ∧
        (e.question name qtype qclass).arcount = e.arcount)
  ∧ (∀ (e e' : MsgEncoder) (name : DName) (rclass ttl : Nat) (rdata : RecordData),
        (e.addAnswer name rclass ttl rdata = some e' →
          e'.ancount = e.ancount + 1 ∧ e'.qdcount = e.qdcount ∧
          e'.nscount = e.nscount ∧ e'.arcount = e.arcount) ∧
        (e.addAuthority name rclass ttl rdata = some e' →
          e'.nscount = e.nscount + 1 ∧ e'.qdcount = e.qdcount ∧
          e'.ancount = e.ancount ∧ e'.arcount = e.arcount) ∧
        (e.addAdditional name rclass ttl rdata = some e' →
          e'.arcount = e.arcount + 1 ∧ e'.qdcount = e.qdcount ∧
          e'.ancount = e.ancount ∧ e'.nscount = e.nscount))
  ∧ (∀ (e : MsgEncoder) (out : List Nat) (res : Except Err Nat),
        (∀ b ∈ e.w.data, b < 256) →
        e.qdcount < 65536 → e.ancount < 65536 → e.nscount < 65536 → e.arcount < 65536 →
        e.finishE = some (out, res) →
        ((res = .error .Truncated) ↔ e.w.trunc = true) ∧
        (e.w.trunc = false → res = .ok e.w.pos) ∧
        (headerOf out).qdcount = e.qdcount ∧ (headerOf out).ancount = e.ancount ∧
        (headerOf out).nscount = e.nscount ∧ (headerOf out).arcount = e.arcount ∧
        (headerOf out).isTruncated = e.w.trunc) := by
  refine ⟨?_, ?_, ?_, ?_⟩
  · intro w s
    refine ⟨writeSlice_trunc w s, fun h => ?_⟩
    unfold Writer.writeSlice
    rw [if_pos h]
  · intro e name qtype qclass
    exact ⟨rfl, rfl, rfl, rfl⟩
  · intro e e' name rclass ttl rdata
    refine ⟨?_, ?_, ?_⟩ <;> (
      intro hadd
      first
      | (unfold MsgEncoder.addAnswer at hadd)
      | (unfold MsgEncoder.addAuthority at hadd)
      | (unfold MsgEncoder.addAdditional at hadd))
    all_goals (
      cases hwr : e.w.writeRR name rclass ttl rdata with
      | none => simp [hwr] at hadd
      | some w1 =>
        simp only [hwr, Option.some.injEq] at hadd
        rw [← hadd]
        exact ⟨rfl, rfl, rfl, rfl⟩)
  · intro e out res hb h1 h2 h3 h4 hfin
    unfold MsgEncoder.finishE at hfin
    cases hph : parseHeader e.w.data with
    | error e0 => simp [hph] at hfin
    | ok v =>
      obtain ⟨cur, p⟩ := v
      simp only [hph, Option.some.injEq, Prod.mk.injEq] at hfin
      obtain ⟨hout, hres⟩ := hfin
      have hcb := parseHeader_fields_lt e.w.data cur p hb hph
      have hresIff : (res = .error .Truncated) ↔ e.w.trunc = true := by
        cases htr : e.w.trunc
        · rw [htr] at hres
          simp only [Bool.false_eq_true, if_false] at hres
          constructor
          · intro hcontra
            rw [hcontra] at hres
            exact absurd hres (by simp)
          · intro hcontra
            exact absurd hcontra (by simp)
        · rw [htr] at hres
          simp only [if_true] at hres
          exact ⟨fun h' => rfl, fun h' => hres.symm⟩
      refine ⟨hresIff, ?_, ?_⟩
      · intro htr
        rw [htr] at hres
        simp only [Bool.false_eq_true, if_false] at hres
        exact hres.symm
      · have hup : out = headerBytes
            ((patchCounts cur e.qdcount e.ancount e.nscount e.arcount).setTruncated e.w.trunc)
            ++ e.w.data.drop 12 := by
          rw [← hout]
          simp [listWrite, headerBytes_length]
        have hflags :
            ((patchCounts cur e.qdcount e.ancount e.nscount e.arcount).setTruncated
              e.w.trunc).flags < 65536 :=
          setFlag_lt cur.flags 512 e.w.trunc hcb.2.1 (by omega)
        have hpr := parseHeader_headerBytes
          ((patchCounts cur e.qdcount e.ancount e.nscount e.arcount).setTruncated e.w.trunc)
          (e.w.data.drop 12) hcb.1 hflags h1 h2 h3 h4
        rw [hup]
        unfold headerOf
        rw [hpr]
        refine ⟨rfl, rfl, rfl, rfl, ?_⟩
        exact isTruncated_setTruncated _ e.w.trunc

instance {ε α : Type} [DecidableEq ε] [DecidableEq α] : DecidableEq (Except ε α) := fun a b =>
  match a, b with
  | .error e1, .error e2 =>
    decidable_of_iff (e1 = e2) ⟨fun h => by rw [h], fun h => by injection h⟩
  | .error _, .ok _ => isFalse fun h => Except.noConfusion h
  | .ok _, .error _ => isFalse fun h => Except.noConfusion h
  | .ok a1, .ok a2 =>
    decidable_of_iff (a1 = a2) ⟨fun h => by rw [h], fun h => by injection h⟩

/-- Witness for C5: encoding one question into a 13-byte buffer
truncates; `finish` returns `Truncated`, the patched header counts one
question, and the TC bit is set. -/
theorem C5_encoder_truncation_contract_witness :
    (((MsgEncoder.new (List.replicate 13 0)).question [[97]] 1 255).finishE
        = some ([0, 0, 2, 0, 0, 1, 0, 0, 0, 0, 0, 0, 1], .error .Truncated))
  ∧ ((Except.error .Truncated = (.error Err.Truncated : Except Err Nat))
        ↔ ((MsgEncoder.new (List.replicate 13 0)).question [[97]] 1 255).w.trunc = true)
  ∧ (headerOf [0, 0, 2, 0, 0, 1, 0, 0, 0, 0, 0, 0, 1]).qdcount = 1
  ∧ (headerOf [0, 0, 2, 0, 0, 1, 0, 0, 0, 0, 0, 0, 1]).isTruncated = true := by
  have hfin : ((MsgEncoder.new (List.replicate 13 0)).question [[97]] 1 255).finishE
      = some ([0, 0, 2, 0, 0, 1, 0, 0, 0, 0, 0, 0, 1], .error .Truncated) := by decide
  have hmain := C5_encoder_truncation_contract.2.2.2
    ((MsgEncoder.new (List.replicate 13 0)).question [[97]] 1 255)
    [0, 0, 2, 0, 0, 1, 0, 0, 0, 0, 0, 0, 1] (.error .Truncated)
    (by decide) (by decide) (by decide) (by decide) (by decide) hfin
  refine ⟨hfin, hmain.1, hmain.2.2.1, ?_⟩
  have htc := hmain.2.2.2.2.2.2
  rw [htc]
  decide

/-- The RR sections a `MessageDecoder` iterates after the questions. -/
inductive RRSection where
  | answer
  | authority
  | additional
deriving DecidableEq, Repr

/-- The state of `MessageDecoder`: header, the four per-section remaining
counters, the reader position, and the sticky error flag.  The phantom
section type of the source is passed explicitly to the operations. -/
structure MsgDecoder where
  header : Header
  qRem : Nat
  ansRem : Nat
  authRem : Nat
  addlRem : Nat
  pos : Nat
  hasErrored : Bool
deriving DecidableEq, Repr

/-- `MessageDecoder::new`: parse the header, seed the four counters from
its counts, start after the header with no error recorded. -/
def MsgDecoder.new (buf : List Nat) : Except Err MsgDecoder :=
  match parseHeader buf with
  | .error e => .error e
  | .ok (h, p) =>
    .ok { header := h, qRem := h.qdcount, ansRem := h.ancount,
          authRem := h.nscount, addlRem := h.arcount, pos := p, hasErrored := false }

/-- The `remaining()` selector of `MessageDecoder` for RR sections. -/
def MsgDecoder.remOf (d : MsgDecoder) : RRSection → Nat
  | .answer => d.ansRem
  | .authority => d.authRem
  | .additional => d.addlRem

/-- Updates the remaining counter of an RR section. -/
def MsgDecoder.setRem (d : MsgDecoder) (s : RRSection) (v : Nat) : MsgDecoder :=
  match s with
  | .answer => { d with ansRem := v }
  | .authority => { d with authRem := v }
  | .additional => { d with addlRem := v }

/-- `MessageDecoder::<Question>::next`: `None` when the flag is set or the
counter exhausted; a failing read sets the sticky flag and returns the
error; a successful read decrements the counter.  `none` of the outer
`Option` models a panic inside `read_domain_name`. -/
def MsgDecoder.nextQ (buf : List Nat) (d : MsgDecoder) :
    Option (Option (Except Err Question) × MsgDecoder) :=
  if d.hasErrored || d.qRem == 0 then some (none, d)
  else
    match readQuestion buf d.pos with
    | .fatal => none
    | .err e => some (some (.error e), { d with hasErrored := true })
    | .ok (q, p) => some (some (.ok q), { d with qRem := d.qRem - 1, pos := p })

/-- `MessageDecoder::next_rr`, shared by the three RR sections. -/
def MsgDecoder.nextRR (buf : List Nat) (s : RRSection) (d : MsgDecoder) :
    Option (Option (Except Err ResourceRecord) × MsgDecoder) :=
  if d.hasErrored || d.remOf s == 0 then some (none, d)
  else
    match readResourceRecord buf d.pos with
    | .fatal => none
    | .err e => some (some (.error e), { d with hasErrored := true })
    | .ok (rr, p) => some (some (.ok rr), { d.setRem s (d.remOf s - 1) with pos := p })

lemma nextQ_ok_qRem (buf : List Nat) (d : MsgDecoder) (q : Question) (d1 : MsgDecoder)
    (h : MsgDecoder.nextQ buf d = some (some (.ok q), d1)) : d1.qRem < d.qRem := by
  unfold MsgDecoder.nextQ at h
  split at h
  · simp at h
  · rename_i hguard
    cases hr : readQuestion buf d.pos with
    | fatal => rw [hr] at h; simp at h
    | err e => rw [hr] at h; simp at h
    | ok v =>
      obtain ⟨q1, p1⟩ := v
      rw [hr] at h
      simp only [Option.some.injEq, Prod.mk.injEq] at h
      obtain ⟨-, hd⟩ := h
      rw [← hd]
      simp only [Bool.or_eq_true, beq_iff_eq] at hguard
      push_neg at hguard
      exact Nat.sub_lt (Nat.pos_of_ne_zero hguard.2) Nat.one_pos

/-- The question-draining loop of the `answers` transition: calls `next`
until it yields `None`, propagating any error. -/
def drainQuestions (buf : List Nat) (d : MsgDecoder) : Option (Except Err MsgDecoder) :=
  match hq : MsgDecoder.nextQ buf d with
  | none => none
  | some (none, d1) => some (.ok d1)
  | some (some (.error e), _) => some (.error e)
  | some (some (.ok _), d1) => drainQuestions buf d1
termination_by d.qRem
decreasing_by
  exact nextQ_ok_qRem buf d _ d1 hq

lemma nextRR_ok_rem (buf : List Nat) (s : RRSection) (d : MsgDecoder)
    (rr : ResourceRecord) (d1 : MsgDecoder)
    (h : MsgDecoder.nextRR buf s d = some (some (.ok rr), d1)) : d1.remOf s < d.remOf s := by
  unfold MsgDecoder.nextRR at h
  split at h
  · simp at h
  · rename_i hguard
    cases hr : readResourceRecord buf d.pos with
    | fatal => rw [hr] at h; simp at h
    | err e => rw [hr] at h; simp at h
    | ok v =>
      obtain ⟨rr1, p1⟩ := v
      rw [hr] at h
      simp only [Option.some.injEq, Prod.mk.injEq] at h
      obtain ⟨-, hd⟩ := h
      rw [← hd]
      simp only [Bool.or_eq_true, beq_iff_eq] at hguard
      push_neg at hguard
      have hpos := Nat.pos_of_ne_zero hguard.2
      cases s <;>
        exact Nat.sub_lt hpos Nat.one_pos

/-- The RR-draining loop shared by the `authority`/`additional`
transitions. -/
def drainRRs (buf : List Nat) (s : RRSection) (d : MsgDecoder) : Option (Except Err MsgDecoder) :=
  match hq : MsgDecoder.nextRR buf s d with
  | none => none
  | some (none, d1) => some (.ok d1)
  | some (some (.error e), _) => some (.error e)
  | some (some (.ok _), d1) => drainRRs buf s d1
termination_by d.remOf s
decreasing_by
  exact nextRR_ok_rem buf s d _ d1 hq

/-- `MessageDecoder::<Question>::answers`: drain the remaining questions,
then change the section (a pure type change in the source). -/
def MsgDecoder.answersT (buf : List Nat) (d : MsgDecoder) : Option (Except Err MsgDecoder) :=
  drainQuestions buf d

/-- `MessageDecoder::<Answer>::authority`. -/
def MsgDecoder.authorityT (buf : List Nat) (d : MsgDecoder) : Option (Except Err MsgDecoder) :=
  drainRRs buf .answer d

/-- `MessageDecoder::<Authority>::additional`. -/
def MsgDecoder.additionalT (buf : List Nat) (d : MsgDecoder) : Option (Except Err MsgDecoder) :=
  drainRRs buf .authority d

lemma nextQ_errored (buf : List Nat) (d : MsgDecoder) (h : d.hasErrored = true) :
    MsgDecoder.nextQ buf d = some (none, d) := by
  unfold MsgDecoder.nextQ
  rw [if_pos (by simp [h])]

lemma nextRR_errored (buf : List Nat) (s : RRSection) (d : MsgDecoder)
    (h : d.hasErrored = true) : MsgDecoder.nextRR buf s d = some (none, d) := by
  unfold MsgDecoder.nextRR
  rw [if_pos (by simp [h])]

lemma nextQ_err_sets_flag (buf : List Nat) (d d1 : MsgDecoder) (e : Err)
    (h : MsgDecoder.nextQ buf d = some (some (.error e), d1)) : d1.hasErrored = true := by
  unfold MsgDecoder.nextQ at h
  split at h
  · simp at h
  · cases hr : readQuestion buf d.pos with
    | fatal => rw [hr] at h; simp at h
    | ok v => rw [hr] at h; simp at h
    | err e1 =>
      rw [hr] at h
      simp only [Option.some.injEq, Prod.mk.injEq] at h
      obtain ⟨-, hd⟩ := h
      rw [← hd]

lemma nextRR_err_sets_flag (buf : List Nat) (s : RRSection) (d d1 : MsgDecoder) (e : Err)
    (h : MsgDecoder.nextRR buf s d = some (some (.error e), d1)) : d1.hasErrored = true := by
  unfold MsgDecoder.nextRR at h
  split at h
  · simp at h
  · cases hr : readResourceRecord buf d.pos with
    | fatal => rw [hr] at h; simp at h
    | ok v => rw [hr] at h; simp at h
    | err e1 =>
      rw [hr] at h
      simp only [Option.some.injEq, Prod.mk.injEq] at h
      obtain ⟨-, hd⟩ := h
      rw [← hd]

lemma drainQuestions_err (buf : List Nat) (d d1 : MsgDecoder) (e : Err)
    (h : MsgDecoder.nextQ buf d = some (some (.error e), d1)) :
    drainQuestions buf d = some (.error e) := by
  rw [drainQuestions]
  split
  · rename_i heq
    rw [h] at heq
    simp at heq
  · rename_i d2 heq
    rw [h] at heq
    simp at heq
  · rename_i e1 d2 heq
    rw [h] at heq
    simp only [Option.some.injEq, Prod.mk.injEq, Except.error.injEq] at heq
    rw [heq.1]
  · rename_i q d2 heq
    rw [h] at heq
    simp at heq

lemma drainRRs_err (buf : List Nat) (s : RRSection) (d d1 : MsgDecoder) (e : Err)
    (h : MsgDecoder.nextRR buf s d = some (some (.error e), d1)) :
    drainRRs buf s d = some (.error e) := by
  rw [drainRRs]
  split
  · rename_i heq
    rw [h] at heq
    simp at heq
  · rename_i d2 heq
    rw [h] at heq
    simp at heq
  · rename_i e1 d2 heq
    rw [h] at heq
    simp only [Option.some.injEq, Prod.mk.injEq, Except.error.injEq] at heq
    rw [heq.1]
  · rename_i rr d2 heq
    rw [h] at heq
    simp at heq

lemma drainQuestions_errored (buf : List Nat) (d : MsgDecoder) (h : d.hasErrored = true) :
    drainQuestions buf d = some (.ok d) := by
  rw [drainQuestions]
  split
  · rename_i heq
    rw [nextQ_errored buf d h] at heq
    simp at heq
  · rename_i d2 heq
    rw [nextQ_errored buf d h] at heq
    simp only [Option.some.injEq, Prod.mk.injEq] at heq
    rw [heq.2]
  · rename_i e1 d2 heq
    rw [nextQ_errored buf d h] at heq
    simp at heq
  · rename_i q d2 heq
    rw [nextQ_errored buf d h] at heq
    simp at heq

lemma drainRRs_errored (buf : List Nat) (s : RRSection) (d : MsgDecoder)
    (h : d.hasErrored = true) : drainRRs buf s d = some (.ok d) := by
  rw [drainRRs]
  split
  · rename_i heq
    rw [nextRR_errored buf s d h] at heq
    simp at heq
  · rename_i d2 heq
    rw [nextRR_errored buf s d h] at heq
    simp only [Option.some.injEq, Prod.mk.injEq] at heq
    rw [heq.2]
  · rename_i e1 d2 heq
    rw [nextRR_errored buf s d h] at heq
    simp at heq
  · rename_i rr d2 heq
    rw [nextRR_errored buf s d h] at heq
    simp at heq

/-- C7: decode errors are sticky.  Once a `next` call has returned an
error the flag is set and every later `next` call in any section returns
`None` with the state unchanged; a transition whose drain hits the error
propagates it (`answers`/`authority`/`additional`); a transition after
the error was already returned succeeds without repeating it — so the
error is returned exactly once, by the failing call. -/
theorem C7_sticky_errors :
    (∀ (buf : List Nat) (d : MsgDecoder), d.hasErrored = true →
        MsgDecoder.nextQ buf d = some (none, d) ∧
        ∀ s : RRSection, MsgDecoder.nextRR buf s d = some (none, d))
  ∧ (∀ (buf : List Nat) (d d1 : MsgDecoder) (e : Err),
        MsgDecoder.nextQ buf d = some (some (.error e), d1) →
        d1.hasErrored = true ∧ MsgDecoder.nextQ buf d1 = some (none, d1))
  ∧ (∀ (buf : List Nat) (s : RRSection) (d d1 : MsgDecoder) (e : Err),
        MsgDecoder.nextRR buf s d = some (some (.error e), d1) →
        d1.hasErrored = true ∧ ∀ s1 : RRSection, MsgDecoder.nextRR buf s1 d1 = some (none, d1))
  ∧ (∀ (buf : List Nat) (d d1 : MsgDecoder) (e : Err),
        MsgDecoder.nextQ buf d = some (some (.error e), d1) →
        MsgDecoder.answersT buf d = some (.error e))
  ∧ (∀ (buf : List Nat) (d d1 : MsgDecoder) (e : Err),
        MsgDecoder.nextRR buf .answer d = some (some (.error e), d1) →
        MsgDecoder.authorityT buf d = some (.error e))
  ∧ (∀ (buf : List Nat) (d d1 : MsgDecoder) (e : Err),
        MsgDecoder.nextRR buf .authority d = some (some (.error e), d1) →
        MsgDecoder.additionalT buf d = some (.error e))
  ∧ (∀ (buf : List Nat) (d : MsgDecoder), d.hasErrored = true →
        MsgDecoder.answersT buf d = some (.ok d) ∧
        MsgDecoder.authorityT buf d = some (.ok d) ∧
        MsgDecoder.additionalT buf d = some (.ok d)) := by
  refine ⟨?_, ?_, ?_, ?_, ?_, ?_, ?_⟩
  · intro buf d h
    exact ⟨nextQ_errored buf d h, fun s => nextRR_errored buf s d h⟩
  · intro buf d d1 e h
    have hf := nextQ_err_sets_flag buf d d1 e h
    exact ⟨hf, nextQ_errored buf d1 hf⟩
  · intro buf s d d1 e h
    have hf := nextRR_err_sets_flag buf s d d1 e h
    exact ⟨hf, fun s1 => nextRR_errored buf s1 d1 hf⟩
  · intro buf d d1 e h
    exact drainQuestions_err buf d d1 e h
  · intro buf d d1 e h
    exact drainRRs_err buf .answer d d1 e h
  · intro buf d d1 e h
    exact drainRRs_err buf .authority d d1 e h
  · intro buf d h
    exact ⟨drainQuestions_errored buf d h, drainRRs_errored buf .answer d h,
      drainRRs_errored buf .authority d h⟩

/-- Decoder state used by the C7 witness: one question and one answer
announced, reader at the end of the 12-byte buffer. -/
def c7Dec (flag : Bool) : MsgDecoder :=
  ⟨⟨4660, 0, 1, 1, 0, 0⟩, 1, 1, 0, 0, 12, flag⟩

/-- Message buffer used by the C7 witness: a header announcing one
question and one answer, with no bytes after it. -/
def c7Buf : List Nat := [18, 52, 0, 0, 0, 1, 0, 1, 0, 0, 0, 0]

/-- Witness for C7: on `c7Buf` the first `next` fails with `Eof` and sets
the sticky flag; the subsequent `next` returns `None`, and the `answers`
transition directly after the failing read propagates the error. -/
theorem C7_sticky_errors_witness :
    (c7Dec true).hasErrored = true
  ∧ MsgDecoder.nextQ c7Buf (c7Dec true) = some (none, c7Dec true)
  ∧ MsgDecoder.answersT c7Buf (c7Dec false) = some (.error .Eof) := by
  have hstep : MsgDecoder.nextQ c7Buf (c7Dec false)
      = some (some (.error .Eof), c7Dec true) := by
    simp +decide [MsgDecoder.nextQ, readQuestion, readDomainName, readDomainNameLoop, c7Dec,
      c7Buf]
  have hpair := C7_sticky_errors.2.1 c7Buf (c7Dec false) (c7Dec true) .Eof hstep
  exact ⟨hpair.1, hpair.2, C7_sticky_errors.2.2.2.1 c7Buf (c7Dec false) (c7Dec true) .Eof hstep⟩

/-- `QType::matches` (`src/packet.rs`): AXFR matches nothing, MAILB the
mailbox types MB/MG/MR, MAILA nothing (obsolete), ALL everything, any
other QType exactly its own type code. -/
def qtypeMatches (q ty : Nat) : Bool :=
  if q = 252 then false
  else if q = 253 then ty == 7 || ty == 8 || ty == 9
  else if q = 254 then false
  else if q = 255 then true
  else q == ty

/-- `QClass::matches`: ANY matches everything, otherwise exact match. -/
def qclassMatches (q c : Nat) : Bool :=
  if q = 255 then true else q == c

/-- A record-database entry of the advertiser (`Entry` in
`src/service/advertising.rs`): name, class `IN`, TTL 120, record. -/
structure Entry where
  name : DName
  eclass : Nat
  ttl : Nat
  record : RecordData
deriving DecidableEq, Repr

/-- `Entry::new`: class `IN` (1) and the fixed TTL of 120 seconds. -/
def Entry.new (name : DName) (record : RecordData) : Entry := ⟨name, 1, 120, record⟩

/-- An answer emitted by the advertiser: the arguments passed to
`enc.add_answer(ResourceRecord::new(name, record).class(..).ttl(..))`. -/
structure Answer where
  name : DName
  aclass : Nat
  ttl : Nat
  record : RecordData
deriving DecidableEq, Repr

/-- The three matching predicates of `handle_packet`, in source order:
class match, type match, exact name equality. -/
def matchesEntry (q : Question) (e : Entry) : Bool :=
  qclassMatches q.qclass e.eclass && qtypeMatches q.qtype e.record.recordType &&
    q.qname == e.name

/-- The inner database scan of `handle_packet` for one question:
appends one answer per matching entry and raises the
`have_relevant_answer` flag on each match. -/
def scanDb (q : Question) : List Entry → List Answer × Bool → List Answer × Bool
  | [], st => st
  | e :: rest, (acc, flag) =>
    if matchesEntry q e then scanDb q rest (acc ++ [⟨e.name, e.eclass, e.ttl, e.record⟩], true)
    else scanDb q rest (acc, flag)

/-- The outer question loop of `handle_packet`, driven by the decoder's
`iter`; errors propagate (`res?`), a panic propagates as `none`. -/
def hpLoop (db : List Entry) (buf : List Nat) (d : MsgDecoder) (acc : List Answer)
    (flag : Bool) : Option (Except Err (List Answer × Bool)) :=
  match hq : MsgDecoder.nextQ buf d with
  | none => none
  | some (none, _) => some (.ok (acc, flag))
  | some (some (.error e), _) => some (.error e)
  | some (some (.ok q), d1) =>
    hpLoop db buf d1 (scanDb q db (acc, flag)).1 (scanDb q db (acc, flag)).2
termination_by d.qRem
decreasing_by exact nextQ_ok_qRem buf d _ d1 hq

/-- The response header prepared by `handle_packet`: default header with
the query's id, `QR=1` and `AA=1`. -/
def respHeader (id : Nat) : Header :=
  ((Header.default.setId id).setResponse true).setAuthority true

/-- `Advertiser::handle_packet` (`src/service/advertising.rs`) at the
level of decoded questions and emitted answers: reject non-queries,
non-QUERY opcodes and non-NO_ERROR rcodes; scan the database for every
question; return a response exactly when a relevant answer was
produced. -/
def handlePacket (db : List Entry) (packet : List Nat) :
    Option (Except Err (Option (Header × List Answer))) :=
  match MsgDecoder.new packet with
  | .error e => some (.error e)
  | .ok d =>
    if !d.header.isQuery then some (.ok none)
    else if !(d.header.opcode == 0) then some (.ok none)
    else if !(d.header.rcode == 0) then some (.ok none)
    else
      match hpLoop db packet d [] false with
      | none => none
      | some (.error e) => some (.error e)
      | some (.ok (ans, flag)) =>
        if flag then some (.ok (some (respHeader d.header.id, ans)))
        else some (.ok none)

/-- The sequence of questions of a message: `n` questions decoded from
`pos`.  This is the reference against which `handle_packet` is stated. -/
def decodeQuestionsN (buf : List Nat) (pos : Nat) (n : Nat) :
    Option (Except Err (List Question)) :=
  match n with
  | 0 => some (.ok [])
  | n + 1 =>
    match readQuestion buf pos with
    | .fatal => none
    | .err e => some (.error e)
    | .ok (q, p) =>
      match decodeQuestionsN buf p n with
      | none => none
      | some (.error e) => some (.error e)
      | some (.ok qs) => some (.ok (q :: qs))

/-- The answers the claim predicts for one question: one per database
entry satisfying the three predicates, in database order. -/
def answersFor (q : Question) (db : List Entry) : List Answer :=
  (db.filter (matchesEntry q)).map (fun e => ⟨e.name, e.eclass, e.ttl, e.record⟩)
lemma isEmpty_append (a b : List Answer) : (a ++ b).isEmpty = (a.isEmpty && b.isEmpty) := by
  cases a <;> simp [List.isEmpty]

lemma scanDb_spec (q : Question) (db : List Entry) :
    ∀ (acc : List Answer) (flag : Bool),
      scanDb q db (acc, flag) = (acc ++ answersFor q db, flag || !(answersFor q db).isEmpty) := by
  induction db with
  | nil => intro acc flag; simp [scanDb, answersFor]
  | cons e rest ih =>
    intro acc flag
    by_cases hm : matchesEntry q e
    · rw [scanDb, if_pos hm, ih]
      unfold answersFor
      rw [List.filter_cons_of_pos hm]
      simp [List.append_assoc]
    · rw [scanDb, if_neg hm, ih]
      unfold answersFor
      rw [List.filter_cons_of_neg hm]

lemma nextQ_done (buf : List Nat) (d : MsgDecoder) (h1 : d.hasErrored = false)
    (h2 : d.qRem = 0) : MsgDecoder.nextQ buf d = some (none, d) := by
  unfold MsgDecoder.nextQ
  rw [if_pos (by simp [h1, h2])]

lemma nextQ_step (buf : List Nat) (d : MsgDecoder) (h1 : d.hasErrored = false)
    (h2 : d.qRem ≠ 0) :
    MsgDecoder.nextQ buf d =
      (match readQuestion buf d.pos with
        | .fatal => none
        | .err e => some (some (.error e), { d with hasErrored := true })
        | .ok (q, p) => some (some (.ok q), { d with qRem := d.qRem - 1, pos := p })) := by
  unfold MsgDecoder.nextQ
  rw [if_neg (by simp [h1, h2])]

lemma hpLoop_stop (db : List Entry) (buf : List Nat) (d d1 : MsgDecoder) (acc : List Answer)
    (flag : Bool) (h : MsgDecoder.nextQ buf d = some (none, d1)) :
    hpLoop db buf d acc flag = some (.ok (acc, flag)) := by
  rw [hpLoop]
  split
  · rename_i heq; rw [h] at heq; simp at heq
  · rfl
  · rename_i heq; rw [h] at heq; simp at heq
  · rename_i heq; rw [h] at heq; simp at heq

lemma hpLoop_err (db : List Entry) (buf : List Nat) (d d1 : MsgDecoder) (acc : List Answer)
    (flag : Bool) (e : Err) (h : MsgDecoder.nextQ buf d = some (some (.error e), d1)) :
    hpLoop db buf d acc flag = some (.error e) := by
  rw [hpLoop]
  split
  · rename_i heq; rw [h] at heq; simp at heq
  · rename_i heq; rw [h] at heq; simp at heq
  · rename_i e1 d2 heq
    rw [h] at heq
    simp only [Option.some.injEq, Prod.mk.injEq, Except.error.injEq] at heq
    rw [heq.1]
  · rename_i heq; rw [h] at heq; simp at heq

lemma hpLoop_step (db : List Entry) (buf : List Nat) (d d1 : MsgDecoder) (acc : List Answer)
    (flag : Bool) (q : Question) (h : MsgDecoder.nextQ buf d = some (some (.ok q), d1)) :
    hpLoop db buf d acc flag
      = hpLoop db buf d1 (scanDb q db (acc, flag)).1 (scanDb q db (acc, flag)).2 := by
  rw [hpLoop]
  split
  · rename_i heq; rw [h] at heq; simp at heq
  · rename_i heq; rw [h] at heq; simp at heq
  · rename_i heq; rw [h] at heq; simp at heq
  · rename_i q1 d2 heq
    rw [h] at heq
    simp only [Option.some.injEq, Prod.mk.injEq, Except.ok.injEq] at heq
    rw [heq.1, heq.2]

lemma hpLoop_spec (n : Nat) :
    ∀ (db : List Entry) (buf : List Nat) (d : MsgDecoder) (acc : List Answer) (flag : Bool)
      (qs : List Question),
      d.hasErrored = false → d.qRem = n →
      decodeQuestionsN buf d.pos n = some (.ok qs) →
      hpLoop db buf d acc flag
        = some (.ok (acc ++ qs.flatMap (fun q => answersFor q db),
            flag || !(qs.flatMap (fun q => answersFor q db)).isEmpty)) := by
  induction n with
  | zero =>
    intro db buf d acc flag qs h1 h2 hdq
    unfold decodeQuestionsN at hdq
    simp only [Option.some.injEq, Except.ok.injEq] at hdq
    rw [hpLoop_stop db buf d d acc flag (nextQ_done buf d h1 h2), ← hdq]
    simp
  | succ n ih =>
    intro db buf d acc flag qs h1 h2 hdq
    unfold decodeQuestionsN at hdq
    cases hr : readQuestion buf d.pos with
    | fatal => simp only [hr] at hdq; exact absurd hdq (by simp)
    | err e => simp only [hr] at hdq; exact absurd hdq (by simp)
    | ok v =>
      obtain ⟨q, p⟩ := v
      simp only [hr] at hdq
      cases hrest : decodeQuestionsN buf p n with
      | none => simp only [hrest] at hdq; exact absurd hdq (by simp)
      | some r =>
        cases r with
        | error e => simp only [hrest] at hdq; exact absurd hdq (by simp)
        | ok qs1 =>
          simp only [hrest, Option.some.injEq, Except.ok.injEq] at hdq
          have hnq : MsgDecoder.nextQ buf d
              = some (some (.ok q), { d with qRem := d.qRem - 1, pos := p }) := by
            rw [nextQ_step buf d h1 (by omega), hr]
          rw [hpLoop_step db buf d _ acc flag q hnq, scanDb_spec]
          rw [ih db buf { d with qRem := d.qRem - 1, pos := p } _ _ qs1 h1 (by simp; omega)
            (by simpa using hrest)]
          rw [← hdq]
          simp [List.append_assoc, Bool.or_assoc, isEmpty_append, Bool.not_and]

lemma new_hasErrored (packet : List Nat) (d : MsgDecoder)
    (h : MsgDecoder.new packet = .ok d) : d.hasErrored = false := by
  unfold MsgDecoder.new at h
  cases hp : parseHeader packet with
  | error e => rw [hp] at h; simp at h
  | ok v =>
    obtain ⟨h1, p⟩ := v
    rw [hp] at h
    simp only [Except.ok.injEq] at h
    rw [← h]

/-- C4: `handle_packet` returns no response when the header is a
response, the opcode is not QUERY, or the rcode is not NO_ERROR;
otherwise it emits, for every decoded question in order, one answer per
database entry satisfying the three predicates (class match with `ANY`
wildcard, type match per the QType table, exact name equality), returns
no response when no answer was emitted, and any response carries the
query's id with `QR=1` and `AA=1`. -/
theorem C4_handle_packet :
    (∀ (db : List Entry) (packet : List Nat) (d : MsgDecoder),
        MsgDecoder.new packet = .ok d →
        (d.header.isQuery = false ∨ d.header.opcode ≠ 0 ∨ d.header.rcode ≠ 0) →
        handlePacket db packet = some (.ok none))
  ∧ (∀ (db : List Entry) (packet : List Nat) (d : MsgDecoder) (qs : List Question),
        MsgDecoder.new packet = .ok d →
        d.header.isQuery = true → d.header.opcode = 0 → d.header.rcode = 0 →
        decodeQuestionsN packet d.pos d.qRem = some (.ok qs) →
        handlePacket db packet = some (.ok
          (if (qs.flatMap (fun q => answersFor q db)).isEmpty then none
           else some (respHeader d.header.id, qs.flatMap (fun q => answersFor q db)))))
  ∧ (∀ id : Nat, (respHeader id).id = id ∧ (respHeader id).isResponse = true ∧
        (respHeader id).isAuthority = true) := by
  refine ⟨?_, ?_, ?_⟩
  · intro db packet d hnew hrej
    unfold handlePacket
    simp only [hnew]
    by_cases h1 : d.header.isQuery
    · by_cases h2 : d.header.opcode = 0
      · by_cases h3 : d.header.rcode = 0
        · rcases hrej with h | h | h
          · rw [h1] at h; simp at h
          · exact absurd h2 h
          · exact absurd h3 h
        · simp [h1, h2, h3]
      · simp [h1, h2]
    · simp [h1]
  · intro db packet d qs hnew h1 h2 h3 hdq
    unfold handlePacket
    simp only [hnew, h1, h2, h3]
    rw [hpLoop_spec d.qRem db packet d [] false qs (new_hasErrored packet d hnew) rfl hdq]
    simp only [List.nil_append, Bool.false_or]
    cases hemp : (qs.flatMap (fun q => answersFor q db)).isEmpty <;> simp [hemp]
  · intro id
    refine ⟨rfl, ?_, ?_⟩
    · exact (by decide :
        ((setFlag (setFlag 0 32768 true) 1024 true &&& 32768 == 32768) = true))
    · exact (by decide :
        ((setFlag (setFlag 0 32768 true) 1024 true &&& 1024 == 1024) = true))

/-- Packet used by the C4 witness: a query with id 12345 asking
`h.local. IN A`. -/
def c4Packet : List Nat :=
  [48, 57, 0, 0, 0, 1, 0, 0, 0, 0, 0, 0,
   1, 104, 5, 108, 111, 99, 97, 108, 0, 0, 1, 0, 1]

/-- Database used by the C4 witness: one A record for `h.local.`. -/
def c4Db : List Entry := [Entry.new [[104], [108, 111, 99, 97, 108]] (.A [192, 0, 2, 1])]

/-- Decoder state right after reading the header of `c4Packet`. -/
def c4Dec : MsgDecoder := ⟨⟨12345, 0, 1, 0, 0, 0⟩, 1, 0, 0, 0, 12, false⟩

/-- The single question carried by `c4Packet`. -/
def c4Q : Question := ⟨[[104], [108, 111, 99, 97, 108]], 1, 1, false⟩

/-- Witness for C4: the query for `h.local. IN A` against the one-entry
database yields a response with one answer, carrying id 12345. -/
theorem C4_handle_packet_witness :
    handlePacket c4Db c4Packet
      = some (.ok (some (respHeader 12345,
          [⟨[[104], [108, 111, 99, 97, 108]], 1, 120, .A [192, 0, 2, 1]⟩])))
  ∧ (respHeader 12345).id = 12345 ∧ (respHeader 12345).isResponse = true ∧
    (respHeader 12345).isAuthority = true := by
  have hdq : decodeQuestionsN c4Packet c4Dec.pos c4Dec.qRem = some (.ok [c4Q]) := by
    simp +decide [decodeQuestionsN, readQuestion, readDomainName, readDomainNameLoop,
      readU16, labelTryNew, c4Packet, c4Dec, c4Q]
  have h := C4_handle_packet.2.1 c4Db c4Packet c4Dec [c4Q] (by decide) (by decide)
    (by decide) (by decide) hdq
  rw [h]
  refine ⟨?_, C4_handle_packet.2.2 12345⟩
  simp +decide [answersFor, c4Db, c4Q, matchesEntry, qclassMatches, qtypeMatches,
    Entry.new, RecordData.recordType, c4Dec, respHeader]

lemma readCharString_bounds (buf : List Nat) (pos : Nat) (s : List Nat) (p : Nat)
    (h : readCharString buf pos = .ok (s, p)) : pos < p ∧ p ≤ buf.length := by
  unfold readCharString at h
  cases h8 : readU8 buf pos with
  | error e => simp only [h8] at h; exact absurd h (by simp)
  | ok v =>
    obtain ⟨len, p1⟩ := v
    simp only [h8] at h
    unfold readSlice at h
    unfold readU8 at h8
    split at h
    · simp only [Except.ok.injEq, Prod.mk.injEq] at h
      split at h8
      · simp only [Except.ok.injEq, Prod.mk.injEq] at h8
        omega
      · simp at h8
    · simp at h

/-- `A::decode`: a four-byte address. -/
def decodeA (buf : List Nat) (pos : Nat) : PRes (RecordData × Nat) :=
  match readSlice buf pos 4 with
  | .error e => .err e
  | .ok (s, p) => .ok (.A s, p)

/-- `AAAA::decode`: a sixteen-byte address. -/
def decodeAAAA (buf : List Nat) (pos : Nat) : PRes (RecordData × Nat) :=
  match readSlice buf pos 16 with
  | .error e => .err e
  | .ok (s, p) => .ok (.AAAA s, p)

/-- `CNAME::decode`. -/
def decodeCNAME (buf : List Nat) (pos : Nat) : PRes (RecordData × Nat) :=
  match readDomainName buf pos with
  | .fatal => .fatal
  | .err e => .err e
  | .ok n p => .ok (.CNAME n, p)

/-- `NS::decode`. -/
def decodeNS (buf : List Nat) (pos : Nat) : PRes (RecordData × Nat) :=
  match readDomainName buf pos with
  | .fatal => .fatal
  | .err e => .err e
  | .ok n p => .ok (.NS n, p)

/-- `PTR::decode`. -/
def decodePTR (buf : List Nat) (pos : Nat) : PRes (RecordData × Nat) :=
  match readDomainName buf pos with
  | .fatal => .fatal
  | .err e => .err e
  | .ok n p => .ok (.PTR n, p)

/-- `MX::decode`: preference then exchange. -/
def decodeMX (buf : List Nat) (pos : Nat) : PRes (RecordData × Nat) :=
  match readU16 buf pos with
  | .error e => .err e
  | .ok (pref, p1) =>
    match readDomainName buf p1 with
    | .fatal => .fatal
    | .err e => .err e
    | .ok n p2 => .ok (.MX pref n, p2)

/-- `SRV::decode`: priority, weight, port, target. -/
def decodeSRV (buf : List Nat) (pos : Nat) : PRes (RecordData × Nat) :=
  match readU16 buf pos with
  | .error e => .err e
  | .ok (prio, p1) =>
    match readU16 buf p1 with
    | .error e => .err e
    | .ok (weight, p2) =>
      match readU16 buf p2 with
      | .error e => .err e
      | .ok (port, p3) =>
        match readDomainName buf p3 with
        | .fatal => .fatal
        | .err e => .err e
        | .ok n p4 => .ok (.SRV prio weight port n, p4)

/-- `SOA::decode`: two names then five 32-bit fields. -/
def decodeSOA (buf : List Nat) (pos : Nat) : PRes (RecordData × Nat) :=
  match readDomainName buf pos with
  | .fatal => .fatal
  | .err e => .err e
  | .ok m p1 =>
    match readDomainName buf p1 with
    | .fatal => .fatal
    | .err e => .err e
    | .ok rn p2 =>
      match readU32 buf p2 with
      | .error e => .err e
      | .ok (serial, p3) =>
        match readU32 buf p3 with
        | .error e => .err e
        | .ok (refresh, p4) =>
          match readU32 buf p4 with
          | .error e => .err e
          | .ok (retry, p5) =>
            match readU32 buf p5 with
            | .error e => .err e
            | .ok (expire, p6) =>
              match readU32 buf p6 with
              | .error e => .err e
              | .ok (minTtl, p7) => .ok (.SOA m rn serial refresh retry expire minTtl, p7)

/-- The character-string loop of `TXT::decode`: read entries until the
RDATA buffer is exhausted. -/
def decodeTxtLoop (buf : List Nat) (pos : Nat) (entries : List (List Nat)) :
    Except Err (List (List Nat) × Nat) :=
  if pos < buf.length then
    match h : readCharString buf pos with
    | .error e => .error e
    | .ok (s, p) => decodeTxtLoop buf p (entries ++ [s])
  else .ok (entries, pos)
termination_by buf.length - pos
decreasing_by
  have := readCharString_bounds buf pos s p h
  omega

/-- `TXT::decode`. -/
def decodeTXT (buf : List Nat) (pos : Nat) : PRes (RecordData × Nat) :=
  match decodeTxtLoop buf pos [] with
  | .error e => .err e
  | .ok (entries, p) => .ok (.TXT entries, p)

/-- `Record::from_rr`: dispatch on the wire type code; types outside the
nine supported ones expose only raw RDATA (`none`). -/
def recordFromRR (ty : Nat) (buf : List Nat) (pos : Nat) : Option (PRes (RecordData × Nat)) :=
  if ty = 1 then some (decodeA buf pos)
  else if ty = 28 then some (decodeAAAA buf pos)
  else if ty = 5 then some (decodeCNAME buf pos)
  else if ty = 15 then some (decodeMX buf pos)
  else if ty = 2 then some (decodeNS buf pos)
  else if ty = 12 then some (decodePTR buf pos)
  else if ty = 16 then some (decodeTXT buf pos)
  else if ty = 33 then some (decodeSRV buf pos)
  else if ty = 6 then some (decodeSOA buf pos)
  else none

/-- Validity of a domain name as a Rust value: every label non-empty, at
most 63 bytes, and made of bytes. -/
def ValidName (n : DName) : Prop := ∀ l ∈ n, l ≠ [] ∧ l.length ≤ 63 ∧ ∀ b ∈ l, b < 256

/-- Validity of a record as a Rust value: component sizes and integer
widths as in the source types (TXT non-emptiness is enforced by
`TXT::new`). -/
def ValidRecord : RecordData → Prop
  | .A o => o.length = 4 ∧ ∀ b ∈ o, b < 256
  | .AAAA o => o.length = 16 ∧ ∀ b ∈ o, b < 256
  | .CNAME n => ValidName n
  | .NS n => ValidName n
  | .PTR n => ValidName n
  | .MX pref ex => pref < 65536 ∧ ValidName ex
  | .TXT es => es ≠ [] ∧ ∀ e ∈ es, e.length ≤ 255 ∧ ∀ b ∈ e, b < 256
  | .SRV p w pt t => p < 65536 ∧ w < 65536 ∧ pt < 65536 ∧ ValidName t
  | .SOA m rn s rf rt ex mt => ValidName m ∧ ValidName rn ∧ s < 4294967296 ∧
      rf < 4294967296 ∧ rt < 4294967296 ∧ ex < 4294967296 ∧ mt < 4294967296

/-- Big-endian byte pair of a `u16` value. -/
def u16Bytes (v : Nat) : List Nat := [v / 256 % 256, v % 256]

/-- Big-endian byte quadruple of a `u32` value. -/
def u32Bytes (v : Nat) : List Nat :=
  [v / 16777216 % 256, v / 65536 % 256, v / 256 % 256, v % 256]

/-- Wire form of one label: length byte then content. -/
def encLabel (l : List Nat) : List Nat := l.length % 256 :: l

/-- Wire form of an uncompressed domain name. -/
def encName (n : DName) : List Nat := n.flatMap encLabel ++ [0]

/-- Wire form of one TXT character-string. -/
def encChar (e : List Nat) : List Nat := e.length % 256 :: e

/-- The RDATA bytes each record variant encodes to. -/
def encBytes : RecordData → List Nat
  | .A o => o
  | .AAAA o => o
  | .CNAME n => encName n
  | .NS n => encName n
  | .PTR n => encName n
  | .MX p ex => u16Bytes p ++ encName ex
  | .TXT es => es.flatMap encChar
  | .SRV p w pt t => u16Bytes p ++ u16Bytes w ++ u16Bytes pt ++ encName t
  | .SOA m rn s rf rt ex mt => encName m ++ encName rn ++ u32Bytes s ++ u32Bytes rf ++
      u32Bytes rt ++ u32Bytes ex ++ u32Bytes mt

lemma listWrite_length (d : List Nat) (p : Nat) (s : List Nat) (h : p + s.length ≤ d.length) :
    (listWrite d p s).length = d.length := by
  simp [listWrite]
  omega

lemma listWrite_append (d : List Nat) (p : Nat) (s1 s2 : List Nat)
    (hp : p + s1.length + s2.length ≤ d.length) :
    listWrite (listWrite d p s1) (p + s1.length) s2 = listWrite d p (s1 ++ s2) := by
  unfold listWrite
  have hassoc : d.take p ++ s1 ++ d.drop (p + s1.length)
      = (d.take p ++ s1) ++ d.drop (p + s1.length) := by
    simp [List.append_assoc]
  rw [hassoc]
  have hlen1 : (d.take p ++ s1).length = p + s1.length := by
    simp
    omega
  rw [List.take_left' hlen1]
  have hdrop : ((d.take p ++ s1) ++ d.drop (p + s1.length)).drop (p + s1.length + s2.length)
      = d.drop (p + s1.length + s2.length) := by
    have hi : p + s1.length + s2.length = (d.take p ++ s1).length + s2.length := by omega
    rw [hi, List.drop_append, List.drop_drop]
    exact congrArg (fun i => List.drop i d) hi
  rw [hdrop]
  have hidx : p + (s1 ++ s2).length = p + s1.length + s2.length := by
    rw [List.length_append]
    omega
  rw [hidx]
  simp [List.append_assoc]

/-- A writer operation that appends exactly `out` when there is room,
leaving earlier bytes and the flag unchanged. -/
def Emits (f : Writer → Writer) (out : List Nat) : Prop :=
  ∀ w : Writer, w.pos + out.length ≤ w.data.length →
    f w = ⟨listWrite w.data w.pos out, w.pos + out.length, w.trunc⟩

lemma emits_slice (s : List Nat) : Emits (fun w => w.writeSlice s) s := by
  intro w h
  show w.writeSlice s = _
  unfold Writer.writeSlice
  rw [if_neg (by omega)]

lemma emits_id : Emits (fun w => w) [] := by
  intro w h
  show w = _
  obtain ⟨d, p, t⟩ := w
  simp [listWrite]

lemma emits_comp {f g : Writer → Writer} {o1 o2 : List Nat}
    (hf : Emits f o1) (hg : Emits g o2) : Emits (fun w => g (f w)) (o1 ++ o2) := by
  intro w h
  show g (f w) = _
  simp only [List.length_append] at h
  have h1 : w.pos + o1.length ≤ w.data.length := by omega
  rw [hf w h1]
  have hlen := listWrite_length w.data w.pos o1 h1
  have h2 : (⟨listWrite w.data w.pos o1, w.pos + o1.length, w.trunc⟩ : Writer).pos + o2.length
      ≤ (⟨listWrite w.data w.pos o1, w.pos + o1.length, w.trunc⟩ : Writer).data.length := by
    simp only []
    omega
  rw [hg _ h2]
  simp only []
  rw [listWrite_append w.data w.pos o1 o2 (by omega)]
  simp only [List.length_append]
  congr 1
  omega

lemma emits_u8 (b : Nat) : Emits (fun w => w.writeU8 b) [b % 256] := emits_slice [b % 256]

lemma emits_u16 (v : Nat) : Emits (fun w => w.writeU16 v) (u16Bytes v) := emits_slice _

lemma emits_u32 (v : Nat) : Emits (fun w => w.writeU32 v) (u32Bytes v) := emits_slice _

lemma emits_label (l : List Nat) :
    Emits (fun w => (w.writeU8 l.length).writeSlice l) (encLabel l) := by
  have h := emits_comp (emits_u8 l.length) (emits_slice l)
  simpa [encLabel] using h

lemma emits_labels (n : DName) :
    Emits (fun w => n.foldl (fun w l => (w.writeU8 l.length).writeSlice l) w)
      (n.flatMap encLabel) := by
  induction n with
  | nil => simpa using emits_id
  | cons l rest ih =>
    have h := emits_comp (emits_label l) ih
    simpa [List.flatMap_cons] using h

lemma emits_name (n : DName) : Emits (fun w => w.writeDomainName n) (encName n) := by
  have h := emits_comp (emits_labels n) (emits_u8 0)
  unfold Writer.writeDomainName encName
  simpa using h

lemma emits_txt (es : List (List Nat)) (h : ∀ e ∈ es, e.length ≤ 255) :
    ∀ w : Writer, w.pos + (es.flatMap encChar).length ≤ w.data.length →
      writeTxtEntries w es
        = some ⟨listWrite w.data w.pos (es.flatMap encChar),
            w.pos + (es.flatMap encChar).length, w.trunc⟩ := by
  induction es with
  | nil =>
    intro w hw
    obtain ⟨d, p, t⟩ := w
    simp [writeTxtEntries, listWrite]
  | cons e rest ih =>
    intro w hw
    have hsplit : ((e :: rest).flatMap encChar).length
        = (encChar e).length + (rest.flatMap encChar).length := by
      simp [List.flatMap_cons]
    have he : e.length ≤ 255 := h e (by simp)
    have h1 : w.pos + (encChar e).length ≤ w.data.length := by omega
    have hlen := listWrite_length w.data w.pos (encChar e) h1
    simp only [writeTxtEntries]
    unfold Writer.writeCharString
    rw [if_pos he]
    have hrw := emits_label e w (by simpa [encLabel, encChar] using h1)
    simp only [] at hrw
    rw [show (Writer.writeU8 w e.length).writeSlice e
        = ⟨listWrite w.data w.pos (encLabel e), w.pos + (encLabel e).length, w.trunc⟩ from hrw]
    have h2 := ih (fun e2 he2 => h e2 (by simp [he2]))
      ⟨listWrite w.data w.pos (encChar e), w.pos + (encChar e).length, w.trunc⟩
      (by
        simp only []
        omega)
    have hec : encLabel e = encChar e := rfl
    rw [hec]
    show writeTxtEntries
        ⟨listWrite w.data w.pos (encChar e), w.pos + (encChar e).length, w.trunc⟩ rest = _
    rw [h2]
    rw [show (⟨listWrite w.data w.pos (encChar e), w.pos + (encChar e).length, w.trunc⟩ :
        Writer).data = listWrite w.data w.pos (encChar e) from rfl]
    rw [show (⟨listWrite w.data w.pos (encChar e), w.pos + (encChar e).length, w.trunc⟩ :
        Writer).pos = w.pos + (encChar e).length from rfl]
    rw [listWrite_append w.data w.pos (encChar e) (rest.flatMap encChar) (by omega)]
    have hfc : encChar e ++ rest.flatMap encChar = (e :: rest).flatMap encChar := by
      simp [List.flatMap_cons]
    rw [hfc]
    have hps : w.pos + (encChar e).length + (rest.flatMap encChar).length
        = w.pos + ((e :: rest).flatMap encChar).length := by
      rw [← hfc]
      simp [List.length_append]
      omega
    rw [hps]

lemma recordEncode_emits (r : RecordData) (hv : ValidRecord r) (w : Writer)
    (h : w.pos + (encBytes r).length ≤ w.data.length) :
    recordEncode r w
      = some ⟨listWrite w.data w.pos (encBytes r), w.pos + (encBytes r).length, w.trunc⟩ := by
  cases r with
  | A o => exact congrArg some (emits_slice o w h)
  | AAAA o => exact congrArg some (emits_slice o w h)
  | CNAME n => exact congrArg some (emits_name n w h)
  | NS n => exact congrArg some (emits_name n w h)
  | PTR n => exact congrArg some (emits_name n w h)
  | MX p ex => exact congrArg some (emits_comp (emits_u16 p) (emits_name ex) w h)
  | TXT es => exact emits_txt es (fun e he => (hv.2 e he).1) w h
  | SRV p wt pt t =>
    have hh := emits_comp (emits_comp (emits_comp (emits_u16 p) (emits_u16 wt)) (emits_u16 pt))
      (emits_name t)
    have happ := hh w (by
      simp only [encBytes, List.length_append] at h ⊢
      omega)
    have hs := congrArg some happ
    simp only [recordEncode]
    simpa [encBytes, List.append_assoc, List.length_append, Nat.add_assoc] using hs
  | SOA m rn s rf rt ex mt =>
    have hh := emits_comp (emits_comp (emits_comp (emits_comp (emits_comp
      (emits_comp (emits_name m) (emits_name rn)) (emits_u32 s)) (emits_u32 rf))
      (emits_u32 rt)) (emits_u32 ex)) (emits_u32 mt)
    have happ := hh w (by
      simp only [encBytes, List.length_append] at h ⊢
      omega)
    have hs := congrArg some happ
    simp only [recordEncode]
    simpa [encBytes, List.append_assoc, List.length_append, Nat.add_assoc] using hs

lemma getD_append_right (a b : List Nat) (i : Nat) :
    (a ++ b).getD (a.length + i) 0 = b.getD i 0 := by
  rw [List.getD_eq_getElem?_getD, List.getD_eq_getElem?_getD,
    List.getElem?_append_right (by omega)]
  have hi : a.length + i - a.length = i := by omega
  rw [hi]

lemma readSlice_at (pre s post : List Nat) :
    readSlice (pre ++ (s ++ post)) pre.length s.length = .ok (s, pre.length + s.length) := by
  unfold readSlice
  rw [if_pos (by simp [List.length_append])]
  rw [List.drop_left, List.take_left]

lemma readU16_at (v : Nat) (pre post : List Nat) (hv : v < 65536) :
    readU16 (pre ++ (u16Bytes v ++ post)) pre.length = .ok (v, pre.length + 2) := by
  unfold readU16
  rw [if_pos (by simp [u16Bytes])]
  have h0 : (pre ++ (u16Bytes v ++ post)).getD pre.length 0 = v / 256 % 256 := by
    have := getD_append_right pre (u16Bytes v ++ post) 0
    simpa [u16Bytes] using this
  have h1 : (pre ++ (u16Bytes v ++ post)).getD (pre.length + 1) 0 = v % 256 := by
    have := getD_append_right pre (u16Bytes v ++ post) 1
    simpa [u16Bytes] using this
  rw [h0, h1]
  simp only [Except.ok.injEq, Prod.mk.injEq]
  exact ⟨by omega, trivial⟩

lemma readU32_at (v : Nat) (pre post : List Nat) (hv : v < 4294967296) :
    readU32 (pre ++ (u32Bytes v ++ post)) pre.length = .ok (v, pre.length + 4) := by
  unfold readU32
  rw [if_pos (by simp [u32Bytes])]
  have h0 : (pre ++ (u32Bytes v ++ post)).getD pre.length 0 = v / 16777216 % 256 := by
    have := getD_append_right pre (u32Bytes v ++ post) 0
    simpa [u32Bytes] using this
  have h1 : (pre ++ (u32Bytes v ++ post)).getD (pre.length + 1) 0 = v / 65536 % 256 := by
    have := getD_append_right pre (u32Bytes v ++ post) 1
    simpa [u32Bytes] using this
  have h2 : (pre ++ (u32Bytes v ++ post)).getD (pre.length + 2) 0 = v / 256 % 256 := by
    have := getD_append_right pre (u32Bytes v ++ post) 2
    simpa [u32Bytes] using this
  have h3 : (pre ++ (u32Bytes v ++ post)).getD (pre.length + 3) 0 = v % 256 := by
    have := getD_append_right pre (u32Bytes v ++ post) 3
    simpa [u32Bytes] using this
  rw [h0, h1, h2, h3]
  simp only [Except.ok.injEq, Prod.mk.injEq]
  exact ⟨by omega, trivial⟩

lemma readDnLoop_literal :
    ∀ (n : DName) (pre post : List Nat) (selfPos minPos : Nat) (acc : DName),
      ValidName n →
      readDomainNameLoop (pre ++ (n.flatMap encLabel ++ (0 :: post))) selfPos acc minPos
        pre.length
        = .ok (acc ++ n) (max selfPos (pre.length + (n.flatMap encLabel).length + 1)) := by
  intro n
  induction n with
  | nil =>
    intro pre post selfPos minPos acc hv
    rw [readDomainNameLoop]
    have hg : (pre ++ ((List.nil : DName).flatMap encLabel ++ (0 :: post))).getD pre.length 0
        = 0 := by
      have h := getD_append_right pre ((List.nil : DName).flatMap encLabel ++ (0 :: post)) 0
      simpa using h
    have hpk : pre.length
        < (pre ++ ((List.nil : DName).flatMap encLabel ++ (0 :: post))).length := by
      simp only [List.length_append, List.flatMap_nil, List.length_nil, List.length_cons]
      omega
    rw [dif_pos hpk, hg]
    rw [if_neg (by decide : ¬((0 : Nat) &&& 192 = 192))]
    rw [if_pos (by decide : (0 : Nat) &&& 192 = 0)]
    rw [dif_pos rfl]
    simp
  | cons l rest ih =>
    intro pre post selfPos minPos acc hv
    obtain ⟨hne, hlen, hbytes⟩ := hv l (by simp)
    have hvrest : ValidName rest := fun l2 hl2 => hv l2 (by simp [hl2])
    have hmod : l.length % 256 = l.length := Nat.mod_eq_of_lt (by omega)
    have hshape : (l :: rest).flatMap encLabel ++ (0 :: post)
        = l.length % 256 :: (l ++ (rest.flatMap encLabel ++ (0 :: post))) := by
      simp [List.flatMap_cons, encLabel, List.append_assoc]
    rw [hshape]
    have hg : (pre ++ (l.length % 256 :: (l ++ (rest.flatMap encLabel ++ (0 :: post))))).getD
        pre.length 0 = l.length := by
      have h := getD_append_right pre
        (l.length % 256 :: (l ++ (rest.flatMap encLabel ++ (0 :: post)))) 0
      simpa [hmod] using h
    have hpk : pre.length < (pre ++ (l.length % 256 :: (l ++ (rest.flatMap encLabel ++
        (0 :: post))))).length := by
      simp only [List.length_append, List.length_cons]
      omega
    rw [readDomainNameLoop, dif_pos hpk, hg]
    rw [if_neg (by rw [land192_of_le63 l.length hlen]; omega)]
    rw [if_pos (land192_of_le63 l.length hlen)]
    rw [dif_neg (show ¬(l.length = 0) from fun hz => hne (List.length_eq_zero.mp hz))]
    have hs : pre.length + 1 + l.length ≤ (pre ++ (l.length % 256 :: (l ++
        (rest.flatMap encLabel ++ (0 :: post))))).length := by
      simp only [List.length_append, List.length_cons]
      omega
    rw [dif_pos hs]
    have hslice : ((pre ++ (l.length % 256 :: (l ++ (rest.flatMap encLabel ++
        (0 :: post))))).drop (pre.length + 1)).take l.length = l := by
      rw [show pre ++ (l.length % 256 :: (l ++ (rest.flatMap encLabel ++ (0 :: post))))
          = (pre ++ [l.length % 256]) ++ (l ++ (rest.flatMap encLabel ++ (0 :: post))) from by
        simp [List.append_assoc]]
      rw [show pre.length + 1 = (pre ++ [l.length % 256]).length from by simp]
      rw [List.drop_left, List.take_left]
    rw [hslice]
    have htn : labelTryNew l = .ok l := by
      unfold labelTryNew
      rw [if_neg (by simpa using hne), if_neg (by omega)]
    rw [htn]
    show readDomainNameLoop
        (pre ++ (l.length % 256 :: (l ++ (rest.flatMap encLabel ++ (0 :: post)))))
        selfPos (acc ++ [l]) minPos (pre.length + 1 + l.length) = _
    rw [show pre ++ (l.length % 256 :: (l ++ (rest.flatMap encLabel ++ (0 :: post))))
        = (pre ++ (l.length % 256 :: l)) ++ (rest.flatMap encLabel ++ (0 :: post)) from by
      simp [List.append_assoc]]
    rw [show pre.length + 1 + l.length = (pre ++ (l.length % 256 :: l)).length from by
      simp only [List.length_append, List.length_cons]
      omega]
    rw [ih (pre ++ (l.length % 256 :: l)) post selfPos minPos (acc ++ [l]) hvrest]
    congr 1
    · simp
    · congr 1
      simp only [List.length_append, List.length_cons, List.flatMap_cons, encLabel]
      omega

lemma readDomainName_at (n : DName) (pre post : List Nat) (h : ValidName n) :
    readDomainName (pre ++ (encName n ++ post)) pre.length
      = .ok n (pre.length + (encName n).length) := by
  unfold readDomainName
  have hsh : encName n ++ post = n.flatMap encLabel ++ (0 :: post) := by
    simp [encName, List.append_assoc]
  rw [hsh, readDnLoop_literal n pre post pre.length pre.length [] h]
  have hmax : max pre.length (pre.length + (n.flatMap encLabel).length + 1)
      = pre.length + (n.flatMap encLabel).length + 1 := by omega
  rw [hmax]
  have hlen : (encName n).length = (n.flatMap encLabel).length + 1 := by
    simp [encName]
  rw [hlen]
  simp [Nat.add_assoc]

lemma readCharString_at (e : List Nat) (pre post : List Nat) (he : e.length ≤ 255) :
    readCharString (pre ++ (encChar e ++ post)) pre.length
      = .ok (e, pre.length + 1 + e.length) := by
  have hmod : e.length % 256 = e.length := Nat.mod_eq_of_lt (by omega)
  unfold readCharString readU8
  rw [if_pos (by simp [encChar])]
  have hg : (pre ++ (encChar e ++ post)).getD pre.length 0 = e.length := by
    have h := getD_append_right pre (encChar e ++ post) 0
    simpa [encChar, hmod] using h
  rw [hg]
  show readSlice (pre ++ (encChar e ++ post)) (pre.length + 1) e.length
      = Except.ok (e, pre.length + 1 + e.length)
  have hsh : pre ++ (encChar e ++ post) = (pre ++ [e.length % 256]) ++ (e ++ post) := by
    simp [encChar, List.append_assoc]
  have hpl : pre.length + 1 = (pre ++ [e.length % 256]).length := by simp
  rw [hsh, hpl, readSlice_at (pre ++ [e.length % 256]) e post]

lemma decodeTxtLoop_at :
    ∀ (es : List (List Nat)) (pre : List Nat) (acc : List (List Nat)),
      (∀ e ∈ es, e.length ≤ 255) →
      decodeTxtLoop (pre ++ es.flatMap encChar) pre.length acc
        = .ok (acc ++ es, pre.length + (es.flatMap encChar).length) := by
  intro es
  induction es with
  | nil =>
    intro pre acc h
    rw [decodeTxtLoop]
    rw [if_neg (by simp)]
    simp
  | cons e rest ih =>
    intro pre acc h
    have he : e.length ≤ 255 := h e (by simp)
    have hsh : (e :: rest).flatMap encChar = encChar e ++ rest.flatMap encChar := by
      simp [List.flatMap_cons]
    rw [hsh]
    rw [decodeTxtLoop]
    rw [if_pos (by simp only [List.length_append, encChar, List.length_cons]; omega)]
    have hrc := readCharString_at e pre (rest.flatMap encChar) he
    split
    · rename_i e1 heq
      rw [hrc] at heq
      exact absurd heq (by simp)
    · rename_i s p heq
      rw [hrc] at heq
      simp only [Except.ok.injEq, Prod.mk.injEq] at heq
      obtain ⟨hs1, hp1⟩ := heq
      rw [← hs1, ← hp1]
      have hre : pre ++ (encChar e ++ rest.flatMap encChar)
          = (pre ++ encChar e) ++ rest.flatMap encChar := by
        simp [List.append_assoc]
      have hpl : pre.length + 1 + e.length = (pre ++ encChar e).length := by
        simp only [List.length_append, encChar, List.length_cons]
        omega
      rw [hre, hpl, ih (pre ++ encChar e) (acc ++ [e]) (fun e2 h2 => h e2 (by simp [h2]))]
      simp only [Except.ok.injEq, Prod.mk.injEq]
      constructor
      · simp
      · simp only [List.length_append]
        omega

lemma readSlice_exact (pre s : List Nat) :
    readSlice (pre ++ s) pre.length s.length = .ok (s, pre.length + s.length) := by
  have h := readSlice_at pre s []
  rwa [List.append_nil] at h

lemma readU16_on (buf pre post : List Nat) (v : Nat) (hv : v < 65536)
    (hb : buf = pre ++ (u16Bytes v ++ post)) :
    readU16 buf pre.length = .ok (v, pre.length + 2) := by
  rw [hb]
  exact readU16_at v pre post hv

lemma readU32_on (buf pre post : List Nat) (v : Nat) (hv : v < 4294967296)
    (hb : buf = pre ++ (u32Bytes v ++ post)) :
    readU32 buf pre.length = .ok (v, pre.length + 4) := by
  rw [hb]
  exact readU32_at v pre post hv

lemma readDomainName_on (buf pre post : List Nat) (n : DName) (h : ValidName n)
    (hb : buf = pre ++ (encName n ++ post)) :
    readDomainName buf pre.length = .ok n (pre.length + (encName n).length) := by
  rw [hb]
  exact readDomainName_at n pre post h

lemma u16Bytes_length (v : Nat) : (u16Bytes v).length = 2 := rfl

lemma u32Bytes_length (v : Nat) : (u32Bytes v).length = 4 := rfl

lemma decodeA_enc (o : List Nat) (ho : o.length = 4) :
    decodeA o 0 = .ok (.A o, o.length) := by
  have h1 : readSlice o 0 o.length = Except.ok (o, 0 + o.length) := readSlice_exact [] o
  rw [Nat.zero_add, ho] at h1
  unfold decodeA
  rw [ho, h1]

lemma decodeAAAA_enc (o : List Nat) (ho : o.length = 16) :
    decodeAAAA o 0 = .ok (.AAAA o, o.length) := by
  have h1 : readSlice o 0 o.length = Except.ok (o, 0 + o.length) := readSlice_exact [] o
  rw [Nat.zero_add, ho] at h1
  unfold decodeAAAA
  rw [ho, h1]

lemma decodeCNAME_enc (n : DName) (h : ValidName n) :
    decodeCNAME (encName n) 0 = .ok (.CNAME n, (encName n).length) := by
  have h1 := readDomainName_on (encName n) [] [] n h (by simp)
  simp only [List.length_nil, Nat.zero_add] at h1
  unfold decodeCNAME
  rw [h1]

lemma decodeNS_enc (n : DName) (h : ValidName n) :
    decodeNS (encName n) 0 = .ok (.NS n, (encName n).length) := by
  have h1 := readDomainName_on (encName n) [] [] n h (by simp)
  simp only [List.length_nil, Nat.zero_add] at h1
  unfold decodeNS
  rw [h1]

lemma decodePTR_enc (n : DName) (h : ValidName n) :
    decodePTR (encName n) 0 = .ok (.PTR n, (encName n).length) := by
  have h1 := readDomainName_on (encName n) [] [] n h (by simp)
  simp only [List.length_nil, Nat.zero_add] at h1
  unfold decodePTR
  rw [h1]

lemma decodeMX_enc (p : Nat) (ex : DName) (hp : p < 65536) (hx : ValidName ex) :
    decodeMX (u16Bytes p ++ encName ex) 0
      = .ok (.MX p ex, 2 + (encName ex).length) := by
  have h1 := readU16_on (u16Bytes p ++ encName ex) [] (encName ex) p hp (by simp)
  simp only [List.length_nil, Nat.zero_add] at h1
  have h2 := readDomainName_on (u16Bytes p ++ encName ex) (u16Bytes p) [] ex hx (by simp)
  simp only [u16Bytes_length] at h2
  unfold decodeMX
  simp only [h1]
  rw [h2]

lemma decodeSRV_enc (p w pt : Nat) (t : DName)
    (hp : p < 65536) (hw : w < 65536) (hpt : pt < 65536) (ht : ValidName t) :
    decodeSRV (u16Bytes p ++ u16Bytes w ++ u16Bytes pt ++ encName t) 0
      = .ok (.SRV p w pt t, 6 + (encName t).length) := by
  have h1 := readU16_on (u16Bytes p ++ u16Bytes w ++ u16Bytes pt ++ encName t) []
    (u16Bytes w ++ (u16Bytes pt ++ encName t)) p hp (by simp)
  simp only [List.length_nil, Nat.zero_add] at h1
  have h2 := readU16_on (u16Bytes p ++ u16Bytes w ++ u16Bytes pt ++ encName t) (u16Bytes p)
    (u16Bytes pt ++ encName t) w hw (by simp)
  simp only [u16Bytes_length] at h2
  have h3 := readU16_on (u16Bytes p ++ u16Bytes w ++ u16Bytes pt ++ encName t)
    (u16Bytes p ++ u16Bytes w) (encName t) pt hpt (by simp)
  simp only [List.length_append, u16Bytes_length] at h3
  have h4 := readDomainName_on (u16Bytes p ++ u16Bytes w ++ u16Bytes pt ++ encName t)
    (u16Bytes p ++ u16Bytes w ++ u16Bytes pt) [] t ht (by simp)
  simp only [List.length_append, u16Bytes_length] at h4
  unfold decodeSRV
  simp only [h1]
  simp only [h2]
  simp only [h3]
  rw [h4]

lemma decodeSOA_enc (m rn : DName) (s rf rt ex mt : Nat)
    (hm : ValidName m) (hrn : ValidName rn) (hs : s < 4294967296) (hrf : rf < 4294967296)
    (hrt : rt < 4294967296) (hex : ex < 4294967296) (hmt : mt < 4294967296) :
    decodeSOA (encName m ++ encName rn ++ u32Bytes s ++ u32Bytes rf ++ u32Bytes rt ++
        u32Bytes ex ++ u32Bytes mt) 0
      = .ok (.SOA m rn s rf rt ex mt,
          (encName m).length + (encName rn).length + 4 + 4 + 4 + 4 + 4) := by
  have h1 := readDomainName_on (encName m ++ encName rn ++ u32Bytes s ++ u32Bytes rf ++
    u32Bytes rt ++ u32Bytes ex ++ u32Bytes mt) []
    (encName rn ++ (u32Bytes s ++ (u32Bytes rf ++ (u32Bytes rt ++ (u32Bytes ex ++ u32Bytes mt)))))
    m hm (by simp)
  simp only [List.length_nil, Nat.zero_add] at h1
  have h2 := readDomainName_on (encName m ++ encName rn ++ u32Bytes s ++ u32Bytes rf ++
    u32Bytes rt ++ u32Bytes ex ++ u32Bytes mt) (encName m)
    (u32Bytes s ++ (u32Bytes rf ++ (u32Bytes rt ++ (u32Bytes ex ++ u32Bytes mt))))
    rn hrn (by simp)
  have h3 := readU32_on (encName m ++ encName rn ++ u32Bytes s ++ u32Bytes rf ++
    u32Bytes rt ++ u32Bytes ex ++ u32Bytes mt) (encName m ++ encName rn)
    (u32Bytes rf ++ (u32Bytes rt ++ (u32Bytes ex ++ u32Bytes mt))) s hs (by simp)
  simp only [List.length_append] at h3
  have h4 := readU32_on (encName m ++ encName rn ++ u32Bytes s ++ u32Bytes rf ++
    u32Bytes rt ++ u32Bytes ex ++ u32Bytes mt) (encName m ++ encName rn ++ u32Bytes s)
    (u32Bytes rt ++ (u32Bytes ex ++ u32Bytes mt)) rf hrf (by simp)
  simp only [List.length_append, u32Bytes_length] at h4
  have h5 := readU32_on (encName m ++ encName rn ++ u32Bytes s ++ u32Bytes rf ++
    u32Bytes rt ++ u32Bytes ex ++ u32Bytes mt)
    (encName m ++ encName rn ++ u32Bytes s ++ u32Bytes rf)
    (u32Bytes ex ++ u32Bytes mt) rt hrt (by simp)
  simp only [List.length_append, u32Bytes_length] at h5
  have h6 := readU32_on (encName m ++ encName rn ++ u32Bytes s ++ u32Bytes rf ++
    u32Bytes rt ++ u32Bytes ex ++ u32Bytes mt)
    (encName m ++ encName rn ++ u32Bytes s ++ u32Bytes rf ++ u32Bytes rt)
    (u32Bytes mt) ex hex (by simp)
  simp only [List.length_append, u32Bytes_length] at h6
  have h7 := readU32_on (encName m ++ encName rn ++ u32Bytes s ++ u32Bytes rf ++
    u32Bytes rt ++ u32Bytes ex ++ u32Bytes mt)
    (encName m ++ encName rn ++ u32Bytes s ++ u32Bytes rf ++ u32Bytes rt ++ u32Bytes ex)
    [] mt hmt (by simp)
  simp only [List.length_append, u32Bytes_length] at h7
  unfold decodeSOA
  simp only [h1]
  simp only [h2]
  simp only [h3]
  simp only [h4]
  simp only [h5]
  simp only [h6]
  rw [h7]

lemma decodeTXT_enc (es : List (List Nat)) (h : ∀ e ∈ es, e.length ≤ 255) :
    decodeTXT (es.flatMap encChar) 0 = .ok (.TXT es, (es.flatMap encChar).length) := by
  have h1 : decodeTxtLoop (es.flatMap encChar) 0 []
      = Except.ok (es, 0 + (es.flatMap encChar).length) := decodeTxtLoop_at es [] [] h
  rw [Nat.zero_add] at h1
  unfold decodeTXT
  rw [h1]

lemma recordFromRR_1 (buf : List Nat) (pos : Nat) :
    recordFromRR 1 buf pos = some (decodeA buf pos) := rfl

lemma recordFromRR_28 (buf : List Nat) (pos : Nat) :
    recordFromRR 28 buf pos = some (decodeAAAA buf pos) := rfl

lemma recordFromRR_5 (buf : List Nat) (pos : Nat) :
    recordFromRR 5 buf pos = some (decodeCNAME buf pos) := rfl

lemma recordFromRR_15 (buf : List Nat) (pos : Nat) :
    recordFromRR 15 buf pos = some (decodeMX buf pos) := rfl

lemma recordFromRR_2 (buf : List Nat) (pos : Nat) :
    recordFromRR 2 buf pos = some (decodeNS buf pos) := rfl

lemma recordFromRR_12 (buf : List Nat) (pos : Nat) :
    recordFromRR 12 buf pos = some (decodePTR buf pos) := rfl

lemma recordFromRR_16 (buf : List Nat) (pos : Nat) :
    recordFromRR 16 buf pos = some (decodeTXT buf pos) := rfl

lemma recordFromRR_33 (buf : List Nat) (pos : Nat) :
    recordFromRR 33 buf pos = some (decodeSRV buf pos) := rfl

lemma recordFromRR_6 (buf : List Nat) (pos : Nat) :
    recordFromRR 6 buf pos = some (decodeSOA buf pos) := rfl

lemma recordFromRR_enc (r : RecordData) (hv : ValidRecord r) :
    recordFromRR r.recordType (encBytes r) 0 = some (.ok (r, (encBytes r).length)) := by
  cases r with
  | A o =>
    simp only [ValidRecord] at hv
    simp only [RecordData.recordType, encBytes, recordFromRR_1]
    rw [decodeA_enc o hv.1]
  | AAAA o =>
    simp only [ValidRecord] at hv
    simp only [RecordData.recordType, encBytes, recordFromRR_28]
    rw [decodeAAAA_enc o hv.1]
  | CNAME n =>
    simp only [ValidRecord] at hv
    simp only [RecordData.recordType, encBytes, recordFromRR_5]
    rw [decodeCNAME_enc n hv]
  | NS n =>
    simp only [ValidRecord] at hv
    simp only [RecordData.recordType, encBytes, recordFromRR_2]
    rw [decodeNS_enc n hv]
  | PTR n =>
    simp only [ValidRecord] at hv
    simp only [RecordData.recordType, encBytes, recordFromRR_12]
    rw [decodePTR_enc n hv]
  | MX p ex =>
    simp only [ValidRecord] at hv
    simp only [RecordData.recordType, encBytes, recordFromRR_15]
    rw [decodeMX_enc p ex hv.1 hv.2]
    simp only [List.length_append, u16Bytes_length]
  | TXT es =>
    simp only [ValidRecord] at hv
    simp only [RecordData.recordType, encBytes, recordFromRR_16]
    rw [decodeTXT_enc es (fun e he => (hv.2 e he).1)]
  | SRV p w pt t =>
    simp only [ValidRecord] at hv
    obtain ⟨hp, hw, hpt, ht⟩ := hv
    simp only [RecordData.recordType, encBytes, recordFromRR_33]
    rw [decodeSRV_enc p w pt t hp hw hpt ht]
    simp only [List.length_append, u16Bytes_length]
  | SOA m rn s rf rt ex mt =>
    simp only [ValidRecord] at hv
    obtain ⟨hm, hrn, hs, hrf, hrt, hex, hmt⟩ := hv
    simp only [RecordData.recordType, encBytes, recordFromRR_6]
    rw [decodeSOA_enc m rn s rf rt ex mt hm hrn hs hrf hrt hex hmt]
    simp only [List.length_append, u32Bytes_length]

/-- C6: for every value of each of the nine supported record types (A, AAAA,
CNAME, MX, NS, PTR, TXT, SRV, SOA), encoding the record's RDATA into a buffer
with enough room writes exactly its wire bytes without truncation, and decoding
those written bytes with the decoder that `Record::from_rr` selects for the same
type code returns the original record. -/
theorem C6_record_roundtrip (r : RecordData) (buf : List Nat)
    (hv : ValidRecord r) (hroom : (encBytes r).length ≤ buf.length) :
    recordEncode r ⟨buf, 0, false⟩
        = some ⟨listWrite buf 0 (encBytes r), (encBytes r).length, false⟩ ∧
    recordFromRR r.recordType ((listWrite buf 0 (encBytes r)).take (encBytes r).length) 0
      = some (.ok (r, (encBytes r).length)) := by
  have htake : (listWrite buf 0 (encBytes r)).take (encBytes r).length = encBytes r := by
    simp only [listWrite, List.take_zero, List.nil_append, Nat.zero_add]
    exact List.take_left' rfl
  constructor
  · have h := recordEncode_emits r hv ⟨buf, 0, false⟩ (by simpa using hroom)
    simpa using h
  · rw [htake]
    exact recordFromRR_enc r hv

def c6R : RecordData := .SOA [[109]] [[114]] 1 2 3 4 5

def c6Buf : List Nat := List.replicate 32 0

/-- Witness for C6 at a concrete SOA record written into a 32-byte buffer. -/
theorem C6_record_roundtrip_witness :
    ValidRecord c6R ∧ (encBytes c6R).length ≤ c6Buf.length ∧
    (recordEncode c6R ⟨c6Buf, 0, false⟩
        = some ⟨listWrite c6Buf 0 (encBytes c6R), (encBytes c6R).length, false⟩ ∧
     recordFromRR c6R.recordType
        ((listWrite c6Buf 0 (encBytes c6R)).take (encBytes c6R).length) 0
      = some (.ok (c6R, (encBytes c6R).length))) :=
  ⟨by simp only [c6R, ValidRecord, ValidName]; decide, by decide,
   C6_record_roundtrip c6R c6Buf (by simp only [c6R, ValidRecord, ValidName]; decide)
     (by decide)⟩
end Uwuhi
